import Mathlib

/-!
# Restoring shared file descriptors (`files.c`): a shallow embedding

The C globals `fdinfo_descs`, `nr_fdinfo_descs`, `fdinfo_list`, `nr_fdinfo_list`
become the fields of `Arena`; the global `fmap_fds` becomes a list of `fmap_fd`.
Each C function that touches them becomes a function that takes the state and
returns its C result together with the new state.

* The two shared pages are arrays indexed by natural numbers, zero filled by
  `mmap`; they are functions `Nat → _` here, written with `Function.update`.
* The intrusive `list_head` of a descriptor is the list of the indices (into
  `fdinfo_list`) of the entries linked on it, in `list_for_each_entry` order.
* `int` values are integers; a conversion the C code performs is written out
  (`to_int`, `to_long`, `to_u32`, `to_ulong`).  The counter `nr_fdinfo_list` is a natural
  number: it only grows, and the model is exact for fewer than `2^31` calls
  (after that the C increment is a signed overflow, which C leaves undefined).
* System calls and helpers of other files are results supplied by `Env`, and
  the calls made are recorded as `Event`s.
-/

namespace Criu

/-! ## Machine integers -/

/-- Conversion of an integer value to C `int` (32 bits, two's complement). -/
def to_int (x : Int) : Int := (x + 2 ^ 31) % 2 ^ 32 - 2 ^ 31

/-- Conversion of an integer value to `u32`. -/
def to_u32 (x : Int) : Nat := (x % 2 ^ 32).toNat

/-- Conversion of an integer value to `unsigned long` (64 bits). -/
def to_ulong (x : Int) : Nat := (x % 2 ^ 64).toNat

/-- Values of C `int`. -/
def is_int (x : Int) : Prop := -(2 ^ 31) ≤ x ∧ x < 2 ^ 31

/-- Values of C `long` (64 bits). -/
def is_long (x : Int) : Prop := -(2 ^ 63) ≤ x ∧ x < 2 ^ 63

instance (x : Int) : Decidable (is_int x) := by unfold is_int; infer_instance

instance (x : Int) : Decidable (is_long x) := by unfold is_long; infer_instance

/-! ## Data model -/

/-- Modelled from the spec: the record kinds of `image.h` (absent from the sources),
"kind: enum{Regular, FileMappedRegion, WorkingDir, Executable}", under the names
`files.c` uses for them. -/
inductive fd_type where
  | FDINFO_REG
  | FDINFO_MAP
  | FDINFO_CWD
  | FDINFO_EXE
  deriving DecidableEq, Repr

/-- Modelled from the spec: `struct fdinfo_entry` of `image.h` (absent from the
sources), "{identity: u64, descriptor_number: i64, kind, open_flags: i32,
file_offset: i64, path_len: u32}", under the field names `files.c` uses. -/
structure fdinfo_entry where
  type : fd_type
  len : Nat
  flags : Int
  pos : Int
  addr : Int
  id : Nat
  deriving DecidableEq, Repr

/-- Modelled from the spec: `fd_is_special` of `image.h` (absent from the sources);
a special record is "a record representing something other than a plain
reopenable file". -/
def fd_is_special (e : fdinfo_entry) : Bool := decide (e.type ≠ fd_type.FDINFO_REG)

/-- Modelled from the spec: `struct fdinfo_list_entry` of `files.h` (absent from the
sources), the spec's SharerEntry "`process_id`, `descriptor_number`,
`signal_word` (barrier payload, 0 = unset)", under the field names `files.c`
uses.  `files.c` prints `fd` and `pid` with `%d`, so both are `int`; `real_pid`
is the 32-bit wait word.  The `list` member is carried by the owning descriptor. -/
structure fdinfo_list_entry where
  fd : Int
  pid : Int
  real_pid : Nat
  deriving DecidableEq, Repr

/-- Modelled from the spec: `struct fdinfo_desc` of `files.h` (absent from the
sources), the spec's SharedFileDescriptor "`identity`, `owner_process_id`,
`owner_descriptor_number`, `sharer_count`, an ordered set of back-references to
SharerEntry", under the field names `files.c` uses, with the wait word
`real_pid`.  `users` is a 32-bit unsigned counter; `list` holds, in iteration
order, the indices of the linked `fdinfo_list` entries. -/
structure fdinfo_desc where
  id : Nat
  addr : Int
  pid : Int
  real_pid : Nat
  users : Nat
  list : List Nat
  deriving DecidableEq, Repr

/-- Modelled from the spec: `struct fmap_fd` of `files.h` (absent from the sources),
the spec's "{process_id, region_start_address, open_descriptor}, singly linked",
under the field names `files.c` uses; the chain of `next` pointers is the list
itself. -/
structure fmap_fd where
  start : Nat
  pid : Int
  fd : Int
  deriving DecidableEq, Repr

/-- The values of `sizeof (struct fdinfo_list_entry)` and
`sizeof (struct fdinfo_desc)`; `files.h` is absent from the sources, so they are
parameters.  A C object has a positive size. -/
structure Sizes where
  list_entry : Nat
  desc : Nat
  list_entry_pos : 0 < list_entry
  desc_pos : 0 < desc

/-- The four globals of `files.c` that make up the shared arena. -/
structure Arena where
  fdinfo_descs : Nat → fdinfo_desc
  nr_fdinfo_descs : Nat
  fdinfo_list : Nat → fdinfo_list_entry
  nr_fdinfo_list : Nat

/-- The state `prepare_shared_fdinfo` leaves when both `mmap` calls succeed: two
zero-filled pages and both counters at their static initial value 0. -/
def prepare_shared_fdinfo : Arena where
  fdinfo_descs := fun _ => { id := 0, addr := 0, pid := 0, real_pid := 0, users := 0, list := [] }
  nr_fdinfo_descs := 0
  fdinfo_list := fun _ => { fd := 0, pid := 0, real_pid := 0 }
  nr_fdinfo_list := 0

/-! ## Collection -/

/-- The loop `for (i = 0; i < nr_fdinfo_descs; i++) if (fdinfo_descs[i].id == id)`,
shared by `find_fd` and `collect_fd`: the first index that matches. -/
def scan_descs (s : Arena) (id : Nat) : Option Nat :=
  (List.range s.nr_fdinfo_descs).find? (fun i => decide ((s.fdinfo_descs i).id = id))

/-- The function `find_fd`: the index of the descriptor returned, `none` for `NULL`. -/
def find_fd (s : Arena) (id : Nat) : Option Nat := scan_descs s id

/-- Modelled from the spec: `list_add (&le->list, &desc->list)` of `list.h` (absent
from the sources).  The spec has a descriptor hold "an ordered set of
back-references" to its entries; as in the kernel list of that name, the new
entry is linked right after the head, so `list_for_each_entry` visits it first. -/
def list_add (le : Nat) (head : List Nat) : List Nat := le :: head

/-- The function `collect_fd (pid, e)`: the C return value and the arena afterwards. -/
def collect_fd (sz : Sizes) (pid : Int) (e : fdinfo_entry) (s : Arena) : Int × Arena :=
  let le := s.nr_fdinfo_list
  let s1 : Arena := { s with nr_fdinfo_list := s.nr_fdinfo_list + 1 }
  if s1.nr_fdinfo_list * sz.list_entry ≥ 4096 then (-1, s1)
  else
    let s2 : Arena :=
      { s1 with fdinfo_list := Function.update s1.fdinfo_list le
                  { pid := pid, fd := to_int e.addr, real_pid := 0 } }
    match scan_descs s2 e.id with
    | some i =>
      let d := s2.fdinfo_descs i
      let d1 : fdinfo_desc := { d with users := (d.users + 1) % 2 ^ 32, list := list_add le d.list }
      if d1.pid < pid then
        (0, { s2 with fdinfo_descs := Function.update s2.fdinfo_descs i d1 })
      else
        (0, { s2 with fdinfo_descs :=
                Function.update s2.fdinfo_descs i { d1 with pid := pid, addr := e.addr } })
    | none =>
      if (s2.nr_fdinfo_descs + 1) * sz.desc ≥ 4096 then (-1, s2)
      else
        let d : fdinfo_desc :=
          { id := e.id, addr := e.addr, pid := pid, real_pid := 0, users := 1,
            list := list_add le [] }
        (0, { s2 with fdinfo_descs := Function.update s2.fdinfo_descs s2.nr_fdinfo_descs d,
                      nr_fdinfo_descs := s2.nr_fdinfo_descs + 1 })

/-- A sequence of `collect_fd` calls, each on the arena the previous one left:
the return values in call order and the final arena. -/
def run_collect (sz : Sizes) : List (Int × fdinfo_entry) → Arena → List Int × Arena
  | [], s => ([], s)
  | c :: cs, s =>
    let r := collect_fd sz c.1 c.2 s
    let rs := run_collect sz cs r.2
    (r.1 :: rs.1, rs.2)

/-- The calls of a sequence that returned 0, given the return values. -/
def succeeded (calls : List (Int × fdinfo_entry)) (rets : List Int) : List (Int × fdinfo_entry) :=
  ((calls.zip rets).filter (fun cr => decide (cr.2 = 0))).map Prod.fst


/-! ## System calls and helpers of other files -/

/-- The results of the system calls and of the helpers defined in files that are
absent from the sources, as seen by one call of a function of `files.c`. -/
structure Env where
  getpid : Int
  open_fe_fd : fdinfo_entry → Int
  reopen_fd_as : Int → Int → Int
  socket : Int
  bind : Int → List Char → Nat → Int
  send_fd : Int → List Char → Nat → Int → Int
  xmalloc_ok : Bool

/-- The calls with an effect outside the arena, in the order they are made. -/
inductive Event where
  | open_image_ro (pid : Int)
  | read_img_eof
  | lseek_cur (len : Nat)
  | close_image
  | open_fe_fd (fe : fdinfo_entry)
  | reopen_fd_as (new_fd old_fd : Int)
  | socket
  | bind (sock : Int) (sun_path : List Char) (len : Nat)
  | send_fd (sock : Int) (sun_path : List Char) (len : Nat) (fd : Int)
  | close (fd : Int)
  deriving DecidableEq, Repr

/-- An event that opens the file a record names: `open (path, fe->flags)` is only
made by `open_fe_fd`. -/
def Event.opens_record_path : Event → Bool
  | Event.open_fe_fd _ => true
  | _ => false

/-- How a call ends: it returns a value, it stops in `BUG_ON`, or it spins in
`cr_wait_while` on a word that nothing in the call itself will ever set. -/
inductive Outcome where
  | ret (v : Int)
  | bug
  | blocked
  deriving DecidableEq, Repr

/-- What `open_image_ro (CR_FD_FDINFO, pid)` and the following `read_img_eof`
calls deliver: no image (`ENOENT`), another open error, or the records followed
by the result of the last read, end of file (`true`) or a read error. -/
inductive Image where
  | missing
  | unreadable
  | stream (records : List fdinfo_entry) (ends_at_eof : Bool)

/-- The `while (1)` loop of `prepare_fd_pid` over the records still to be read:
the value of `ret` at the `break`, the arena and the events. -/
def prepare_fd_pid_loop (sz : Sizes) (pid : Int) (ends_at_eof : Bool) :
    List fdinfo_entry → Arena → Int × Arena × List Event
  | [], s => (if ends_at_eof then 0 else -1, s, [Event.read_img_eof])
  | e :: es, s =>
    let skip : List Event := if e.len ≠ 0 then [Event.lseek_cur e.len] else []
    if fd_is_special e then
      let r := prepare_fd_pid_loop sz pid ends_at_eof es s
      (r.1, r.2.1, Event.read_img_eof :: skip ++ r.2.2)
    else
      let c := collect_fd sz pid e s
      if c.1 < 0 then (c.1, c.2, Event.read_img_eof :: skip)
      else
        let r := prepare_fd_pid_loop sz pid ends_at_eof es c.2
        (r.1, r.2.1, Event.read_img_eof :: skip ++ r.2.2)

/-- The function `prepare_fd_pid (pid)`: the collection pass over the image of one process. -/
def prepare_fd_pid (sz : Sizes) (pid : Int) (img : Image) (s : Arena) : Int × Arena × List Event :=
  match img with
  | Image.missing => (0, s, [Event.open_image_ro pid])
  | Image.unreadable => (-1, s, [Event.open_image_ro pid])
  | Image.stream records ends_at_eof =>
    let r := prepare_fd_pid_loop sz pid ends_at_eof records s
    (r.1, r.2.1, Event.open_image_ro pid :: r.2.2 ++ [Event.close_image])

/-! ## Transport names -/

/-- The constant `UNIX_PATH_MAX`, the size of `sun_path`. -/
def UNIX_PATH_MAX : Nat := 108

/-- The decimal digits of a natural number, most significant first. -/
def decimal (n : Nat) : List Char :=
  if n = 0 then ['0'] else (Nat.digits 10 n).reverse.map Nat.digitChar

/-- What `%d` and `%ld` print for an integer. -/
def fmt_d (x : Int) : List Char :=
  if x < 0 then '-' :: decimal x.natAbs else decimal x.natAbs

/-- The characters the format `"x/crtools-fd-%d-%ld"` produces. -/
def name_text (pid fd : Int) : List Char :=
  ['x', '/', 'c', 'r', 't', 'o', 'o', 'l', 's', '-', 'f', 'd', '-'] ++ fmt_d pid ++ '-' :: fmt_d fd

/-- The call `snprintf (buf, size, "x/crtools-fd-%d-%ld", pid, fd)`: the string left in
`buf`, at most `size - 1` characters. -/
def snprintf_name (size : Nat) (pid fd : Int) : List Char :=
  (name_text pid fd).take (size - 1)

/-- The function `transport_name_gen (addr, len, pid, fd)`, with `pid` an `int` and `fd` a
`long`: the bytes of `sun_path` that `*len` covers and `*len` itself.
`SUN_LEN` is the offset of `sun_path` (2) plus the length of the string, taken
before the first byte is overwritten with NUL. -/
def transport_name_gen (pid fd : Int) : List Char × Nat :=
  let path := snprintf_name UNIX_PATH_MAX pid fd
  (path.set 0 (Char.ofNat 0), 2 + path.length)

/-- Conversion of an integer value to C `long` (64 bits, two's complement). -/
def to_long (x : Int) : Int := (x + 2 ^ 63) % 2 ^ 64 - 2 ^ 63

/-! ## The three phases -/

/-- The function `find_fdinfo_list_entry (pid, fd, fi)`: the index of the entry found, `none`
when the loop ends with `found == 0` and `BUG_ON` fires. -/
def find_fdinfo_list_entry (s : Arena) (pid fd : Int) (fi : Nat) : Option Nat :=
  (s.fdinfo_descs fi).list.find?
    (fun k => decide ((s.fdinfo_list k).fd = fd ∧ (s.fdinfo_list k).pid = pid))

/-- The call `cr_wait_set (&fdinfo_list[k].real_pid, v)`. -/
def set_fle_real_pid (s : Arena) (k : Nat) (v : Nat) : Arena :=
  let fle := s.fdinfo_list k
  { s with fdinfo_list := Function.update s.fdinfo_list k { fle with real_pid := v } }

/-- The function `open_transport_fd (pid, fe, fi)`, the PREPARE step, `fi` being the index of
the descriptor. -/
def open_transport_fd (env : Env) (pid : Int) (fe : fdinfo_entry) (fi : Nat) (s : Arena) :
    Outcome × Arena × List Event :=
  if (s.fdinfo_descs fi).pid = pid then (Outcome.ret 0, s, [])
  else
    let name := transport_name_gen env.getpid (to_long fe.addr)
    match find_fdinfo_list_entry s pid (to_int fe.addr) fi with
    | none => (Outcome.bug, s, [])
    | some fle =>
      let sock := env.socket
      if sock < 0 then (Outcome.ret (-1), s, [Event.socket])
      else if env.bind sock name.1 name.2 < 0 then
        (Outcome.ret (-1), s, [Event.socket, Event.bind sock name.1 name.2])
      else if env.reopen_fd_as (to_int fe.addr) sock < 0 then
        (Outcome.ret (-1), s,
          [Event.socket, Event.bind sock name.1 name.2, Event.reopen_fd_as (to_int fe.addr) sock])
      else
        (Outcome.ret 0, set_fle_real_pid s fle (to_u32 env.getpid),
          [Event.socket, Event.bind sock name.1 name.2, Event.reopen_fd_as (to_int fe.addr) sock])

/-- The call `cr_wait_set (&fdinfo_descs[fi].real_pid, v)`. -/
def set_desc_real_pid (s : Arena) (fi : Nat) (v : Nat) : Arena :=
  let d := s.fdinfo_descs fi
  { s with fdinfo_descs := Function.update s.fdinfo_descs fi { d with real_pid := v } }

/-- The statement `fi->users--` on a 32-bit unsigned counter. -/
def dec_users (s : Arena) (fi : Nat) : Arena :=
  let d := s.fdinfo_descs fi
  { s with fdinfo_descs :=
      Function.update s.fdinfo_descs fi { d with users := (d.users + (2 ^ 32 - 1)) % 2 ^ 32 } }

/-- The `list_for_each_entry` loop of `open_fd` over the entries still to be
visited.  `none` means the loop ran to its end; `some o` that the call ended
inside the loop with outcome `o`. -/
def open_fd_loop (env : Env) (pid : Int) (fe : fdinfo_entry) (fi : Nat) (sock : Int) :
    List Nat → Arena → Option Outcome × Arena × List Event
  | [], s => (none, s, [])
  | k :: rest, s =>
    let s1 := dec_users s fi
    let fle := s1.fdinfo_list k
    if pid = fle.pid then open_fd_loop env pid fe fi sock rest s1
    else if fle.real_pid = 0 then (some Outcome.blocked, s1, [])
    else
      let name := transport_name_gen (to_int fle.real_pid) fle.fd
      let ev := Event.send_fd sock name.1 name.2 fe.addr
      if env.send_fd sock name.1 name.2 fe.addr < 0 then (some (Outcome.ret (-1)), s1, [ev])
      else
        let r := open_fd_loop env pid fe fi sock rest s1
        (r.1, r.2.1, ev :: r.2.2)

/-- The function `open_fd (pid, fe, fi, fdinfo_fd)`, the CREATE step, `fi` being the index of
the descriptor. -/
def open_fd (env : Env) (pid : Int) (fe : fdinfo_entry) (fi : Nat) (s : Arena) :
    Outcome × Arena × List Event :=
  if (s.fdinfo_descs fi).pid ≠ pid ∨ fe.addr ≠ (s.fdinfo_descs fi).addr then (Outcome.ret 0, s, [])
  else
    let tmp := env.open_fe_fd fe
    if tmp < 0 then (Outcome.ret (-1), s, [Event.open_fe_fd fe])
    else if env.reopen_fd_as (to_int fe.addr) tmp ≠ 0 then
      (Outcome.ret (-1), s, [Event.open_fe_fd fe, Event.reopen_fd_as (to_int fe.addr) tmp])
    else if (s.fdinfo_descs fi).users = 1 then
      (Outcome.ret 0, s, [Event.open_fe_fd fe, Event.reopen_fd_as (to_int fe.addr) tmp])
    else
      let sock := env.socket
      if sock < 0 then
        (Outcome.ret (-1), s,
          [Event.open_fe_fd fe, Event.reopen_fd_as (to_int fe.addr) tmp, Event.socket])
      else
        let s1 := set_desc_real_pid s fi (to_u32 env.getpid)
        let r := open_fd_loop env pid fe fi sock (s1.fdinfo_descs fi).list s1
        let evs := [Event.open_fe_fd fe, Event.reopen_fd_as (to_int fe.addr) tmp, Event.socket] ++ r.2.2
        match r.1 with
        | some o => (o, r.2.1, evs)
        | none =>
          if (r.2.1.fdinfo_descs fi).users ≠ 0 then (Outcome.bug, r.2.1, evs)
          else (Outcome.ret 0, r.2.1, evs ++ [Event.close sock])

/-- The `send_fd` calls among the events, as (address bytes, length). -/
def sends : List Event → List (List Char × Nat)
  | [] => []
  | Event.send_fd _ p n _ :: evs => (p, n) :: sends evs
  | _ :: evs => sends evs

/-! ## The cache of file-mapped regions -/

/-- The function `open_fmap (pid, fe, fd)`: the C return value and the list `fmap_fds`
afterwards. -/
def open_fmap (env : Env) (pid : Int) (fe : fdinfo_entry) (fmap_fds : List fmap_fd) :
    Int × List fmap_fd :=
  let tmp := env.open_fe_fd fe
  if tmp < 0 then (-1, fmap_fds)
  else if env.xmalloc_ok = false then (-1, fmap_fds)
  else (0, { start := to_ulong fe.addr, fd := tmp, pid := pid } :: fmap_fds)

/-- The function `pull_fmap_fd (pid, start)`: the entry unlinked (`none` for `NULL`) and the
list `fmap_fds` afterwards. -/
def pull_fmap_fd (pid : Int) (start : Nat) : List fmap_fd → Option fmap_fd × List fmap_fd
  | [] => (none, [])
  | p :: rest =>
    if p.start ≠ start ∨ p.pid ≠ pid then
      let r := pull_fmap_fd pid start rest
      (r.1, p :: r.2)
    else (some p, rest)

/-- The function `get_filemap_fd (pid, vma_entry)`, with `start` the value of
`vma_entry->start`: the C return value and the list `fmap_fds` afterwards. -/
def get_filemap_fd (pid : Int) (start : Nat) (fmap_fds : List fmap_fd) : Int × List fmap_fd :=
  let r := pull_fmap_fd pid start fmap_fds
  (match r.1 with
   | some f => f.fd
   | none => -1, r.2)

/-- One operation on the cache: an `open_fmap` call or a `get_filemap_fd` call. -/
inductive fmap_op where
  | insert (env : Env) (pid : Int) (fe : fdinfo_entry)
  | lookup (pid : Int) (start : Nat)

/-- The list `fmap_fds` after a sequence of operations. -/
def run_fmap : List fmap_op → List fmap_fd → List fmap_fd
  | [], c => c
  | fmap_op.insert env pid fe :: ops, c => run_fmap ops (open_fmap env pid fe c).2
  | fmap_op.lookup pid start :: ops, c => run_fmap ops (get_filemap_fd pid start c).2

/-- The cache entries with the key `(pid, start)`. -/
def fmap_matches (pid : Int) (start : Nat) (fmap_fds : List fmap_fd) : List fmap_fd :=
  fmap_fds.filter (fun p => decide (p.start = start ∧ p.pid = pid))


/-- The collection as the restore driver runs it around one process: earlier
`collect_fd` calls from the empty arena, then the pass `prepare_fd_pid` over the
image of `pid`, then later `collect_fd` calls.  The result of the pass and the
final arena. -/
def collect_around (sz : Sizes) (before : List (Int × fdinfo_entry)) (pid : Int) (img : Image)
    (after : List (Int × fdinfo_entry)) : Int × Arena :=
  let p := prepare_fd_pid sz pid img (run_collect sz before prepare_shared_fdinfo).2
  (p.1, (run_collect sz after p.2.1).2)

/-- The arena after a sequence of `collect_fd` calls from the empty arena. -/
def collected (sz : Sizes) (calls : List (Int × fdinfo_entry)) : Arena :=
  (run_collect sz calls prepare_shared_fdinfo).2

/-- Every entry on the list of descriptor `fi` that belongs to another process
than the owner has a nonzero wait word: `cr_wait_while (&fle->real_pid, 0)`
returns for each of them. -/
def signalled (s : Arena) (fi : Nat) : Prop :=
  ∀ k ∈ (s.fdinfo_descs fi).list,
    (s.fdinfo_list k).pid ≠ (s.fdinfo_descs fi).pid → (s.fdinfo_list k).real_pid ≠ 0

/-- Every open and every send of a CREATE step on the record `fe` succeeds. -/
def calls_succeed (env : Env) (fe : fdinfo_entry) : Prop :=
  0 ≤ env.open_fe_fd fe ∧ (∀ a b, env.reopen_fd_as a b = 0) ∧ 0 ≤ env.socket ∧
    ∀ a b c d, 0 ≤ env.send_fd a b c d

/-! ## The invariant of collection -/

/-- What holds of the arena after a sequence of `collect_fd` calls from the empty
arena, `H` being the calls that returned 0, in call order. -/
structure Inv (sz : Sizes) (H : List (Int × fdinfo_entry)) (s : Arena) : Prop where
  ids_inj : ∀ i j, i < s.nr_fdinfo_descs → j < s.nr_fdinfo_descs →
    (s.fdinfo_descs i).id = (s.fdinfo_descs j).id → i = j
  cap : ∀ i, i < s.nr_fdinfo_descs → (i + 1) * sz.desc < 4096
  list_lt : ∀ i, i < s.nr_fdinfo_descs → ∀ k ∈ (s.fdinfo_descs i).list,
    k < s.nr_fdinfo_list ∧ (k + 1) * sz.list_entry < 4096
  list_nodup : ∀ i, i < s.nr_fdinfo_descs → (s.fdinfo_descs i).list.Nodup
  users_eq : ∀ i, i < s.nr_fdinfo_descs → (s.fdinfo_descs i).users = (s.fdinfo_descs i).list.length
  list_count : ∀ i, i < s.nr_fdinfo_descs → (s.fdinfo_descs i).list.length =
    (H.filter (fun c => decide (c.2.id = (s.fdinfo_descs i).id))).length
  entry_hist : ∀ i, i < s.nr_fdinfo_descs → ∀ k ∈ (s.fdinfo_descs i).list,
    ∃ c ∈ H, c.2.id = (s.fdinfo_descs i).id ∧ s.fdinfo_list k = ⟨to_int c.2.addr, c.1, 0⟩
  hist_entry : ∀ c ∈ H, ∃ i, i < s.nr_fdinfo_descs ∧ (s.fdinfo_descs i).id = c.2.id ∧
    ∃ k ∈ (s.fdinfo_descs i).list, s.fdinfo_list k = ⟨to_int c.2.addr, c.1, 0⟩
  owner_le : ∀ i, i < s.nr_fdinfo_descs → ∀ c ∈ H, c.2.id = (s.fdinfo_descs i).id →
    (s.fdinfo_descs i).pid ≤ c.1
  owner_mem : ∀ i, i < s.nr_fdinfo_descs → ∃ c ∈ H, c.2.id = (s.fdinfo_descs i).id ∧
    c.1 = (s.fdinfo_descs i).pid ∧ c.2.addr = (s.fdinfo_descs i).addr

/-! ## Example inputs -/

/-- A regular record for descriptor number `addr` of the file `id`. -/
def reg (addr : Int) (id : Nat) : fdinfo_entry :=
  { type := fd_type.FDINFO_REG, len := 0, flags := 0, pos := 0, addr := addr, id := id }

/-- A file-mapped-region record for the region that starts at `addr`. -/
def map_rec (addr : Int) : fdinfo_entry :=
  { type := fd_type.FDINFO_MAP, len := 0, flags := 0, pos := 0, addr := addr, id := 0 }

/-- Structure sizes of a 64-bit build: 32 bytes per list entry, 48 per descriptor. -/
def sizes64 : Sizes := ⟨32, 48, by decide, by decide⟩

/-- An environment in which every call succeeds: the calling process is `me`,
`open_fe_fd` returns `new_fd` and `socket` returns 9. -/
def env_ok (me new_fd : Int) : Env :=
  { getpid := me, open_fe_fd := fun _ => new_fd, reopen_fd_as := fun _ _ => 0, socket := 9,
    bind := fun _ _ _ => 0, send_fd := fun _ _ _ _ => 0, xmalloc_ok := true }

/-- A pass of 86 regular records, descriptor numbers and identities 0 to 85. -/
def many_ids : List (Int × fdinfo_entry) :=
  (List.range 86).map (fun n => ((1 : Int), reg (Int.ofNat n) n))

/-- Three sharers of the file 9: descriptor 4 of process 3, descriptor 4 of
process 7 and descriptor 6 of process 5. -/
def three_sharers : List (Int × fdinfo_entry) := [(3, reg 4 9), (7, reg 4 9), (5, reg 6 9)]

/-- The arena after collecting `three_sharers` and after the PREPARE steps of
processes 7 and 5, which run as the restored processes 107 and 105. -/
def three_prepared : Arena :=
  (open_transport_fd (env_ok 105 0) 5 (reg 6 9) 0
    (open_transport_fd (env_ok 107 0) 7 (reg 4 9) 0 (collected sizes64 three_sharers)).2.1).2.1


/-! ## The cache of file-mapped regions: theorems -/

theorem pull_fmap_fd_miss (pid : Int) (start : Nat) (c : List fmap_fd)
    (h : ∀ p ∈ c, ¬(p.start = start ∧ p.pid = pid)) : pull_fmap_fd pid start c = (none, c) := by
  induction c with
  | nil => rfl
  | cons p rest ih =>
    have hp : p.start ≠ start ∨ p.pid ≠ pid := by
      have := h p (List.mem_cons_self _ _)
      by_cases h1 : p.start = start
      · exact Or.inr (fun h2 => this ⟨h1, h2⟩)
      · exact Or.inl h1
    have hr := ih (fun q hq => h q (List.mem_cons_of_mem _ hq))
    simp [pull_fmap_fd, hp, hr]

theorem pull_fmap_fd_hit (pid : Int) (start : Nat) (l1 : List fmap_fd) (x : fmap_fd)
    (l2 : List fmap_fd) (h : ∀ p ∈ l1, ¬(p.start = start ∧ p.pid = pid))
    (hx : x.start = start ∧ x.pid = pid) :
    pull_fmap_fd pid start (l1 ++ x :: l2) = (some x, l1 ++ l2) := by
  induction l1 with
  | nil => simp [pull_fmap_fd, hx.1, hx.2]
  | cons p rest ih =>
    have hp : p.start ≠ start ∨ p.pid ≠ pid := by
      have := h p (List.mem_cons_self _ _)
      by_cases h1 : p.start = start
      · exact Or.inr (fun h2 => this ⟨h1, h2⟩)
      · exact Or.inl h1
    have hr := ih (fun q hq => h q (List.mem_cons_of_mem _ hq))
    simp [pull_fmap_fd, hp, hr]

theorem first_match_split (pid : Int) (start : Nat) (c : List fmap_fd)
    (h : ∃ p ∈ c, p.start = start ∧ p.pid = pid) :
    ∃ l1 x l2, c = l1 ++ x :: l2 ∧ (∀ p ∈ l1, ¬(p.start = start ∧ p.pid = pid)) ∧
      (x.start = start ∧ x.pid = pid) := by
  induction c with
  | nil => simp at h
  | cons q rest ih =>
    by_cases hq : q.start = start ∧ q.pid = pid
    · exact ⟨[], q, rest, rfl, by simp, hq⟩
    · obtain ⟨p, hp, hm⟩ := h
      have hp2 : p ∈ rest := by
        rcases List.mem_cons.1 hp with rfl | h2
        · exact absurd hm hq
        · exact h2
      obtain ⟨l1, x, l2, e, hn, hx⟩ := ih ⟨p, hp2, hm⟩
      refine ⟨q :: l1, x, l2, by simp [e], ?_, hx⟩
      intro r hr
      rcases List.mem_cons.1 hr with rfl | h2
      · exact hq
      · exact hn r h2

theorem get_filemap_fd_miss (pid : Int) (start : Nat) (c : List fmap_fd)
    (h : ∀ p ∈ c, ¬(p.start = start ∧ p.pid = pid)) : get_filemap_fd pid start c = (-1, c) := by
  simp [get_filemap_fd, pull_fmap_fd_miss pid start c h]

theorem get_filemap_fd_hit (pid : Int) (start : Nat) (l1 : List fmap_fd) (x : fmap_fd)
    (l2 : List fmap_fd) (h : ∀ p ∈ l1, ¬(p.start = start ∧ p.pid = pid))
    (hx : x.start = start ∧ x.pid = pid) :
    get_filemap_fd pid start (l1 ++ x :: l2) = (x.fd, l1 ++ l2) := by
  simp [get_filemap_fd, pull_fmap_fd_hit pid start l1 x l2 h hx]

/-- C5. The function `get_filemap_fd (pid, start)` on the cache seen as a list: when no entry
has both that pid and that start it returns -1 and leaves the cache as it was;
otherwise the cache splits as `l1 ++ x :: l2` with `x` the first entry matching
both fields, the call returns the descriptor of `x`, and the cache afterwards is
`l1 ++ l2`: only `x` is gone and every other entry keeps its place. -/
theorem get_filemap_fd_frame (pid : Int) (start : Nat) (c : List fmap_fd) :
    ((∀ p ∈ c, ¬(p.start = start ∧ p.pid = pid)) → get_filemap_fd pid start c = (-1, c)) ∧
    ((∃ p ∈ c, p.start = start ∧ p.pid = pid) →
      ∃ l1 x l2, c = l1 ++ x :: l2 ∧ (∀ p ∈ l1, ¬(p.start = start ∧ p.pid = pid)) ∧
        (x.start = start ∧ x.pid = pid) ∧ get_filemap_fd pid start c = (x.fd, l1 ++ l2)) := by
  constructor
  · exact get_filemap_fd_miss pid start c
  · intro h
    obtain ⟨l1, x, l2, e, hn, hx⟩ := first_match_split pid start c h
    refine ⟨l1, x, l2, e, hn, hx, ?_⟩
    subst e
    exact get_filemap_fd_hit pid start l1 x l2 hn hx

/-- C5, at a cache of three entries: a key that matches one field only misses, and
the key of the second entry returns its descriptor and removes that entry only. -/
theorem get_filemap_fd_frame_witness :
    get_filemap_fd 1 8 [⟨8, 2, 5⟩, ⟨4, 1, 6⟩, ⟨4, 1, 7⟩] = (-1, [⟨8, 2, 5⟩, ⟨4, 1, 6⟩, ⟨4, 1, 7⟩]) ∧
    ∃ l1 x l2, [(⟨8, 2, 5⟩ : fmap_fd), ⟨4, 1, 6⟩, ⟨4, 1, 7⟩] = l1 ++ x :: l2 ∧
      (∀ p ∈ l1, ¬(p.start = 4 ∧ p.pid = 1)) ∧ (x.start = 4 ∧ x.pid = 1) ∧
      get_filemap_fd 1 4 [⟨8, 2, 5⟩, ⟨4, 1, 6⟩, ⟨4, 1, 7⟩] = (x.fd, l1 ++ l2) :=
  ⟨(get_filemap_fd_frame 1 8 [⟨8, 2, 5⟩, ⟨4, 1, 6⟩, ⟨4, 1, 7⟩]).1 (by decide),
   (get_filemap_fd_frame 1 4 [⟨8, 2, 5⟩, ⟨4, 1, 6⟩, ⟨4, 1, 7⟩]).2 (by decide)⟩

theorem fmap_matches_nil_of_length (pid : Int) (start : Nat) (c : List fmap_fd)
    (h : (fmap_matches pid start c).length = 0) : ∀ p ∈ c, ¬(p.start = start ∧ p.pid = pid) := by
  intro p hp hm
  have : p ∈ fmap_matches pid start c := by
    simp [fmap_matches, List.mem_filter, hp, hm.1, hm.2]
  have h0 : fmap_matches pid start c = [] := List.length_eq_zero.1 h
  rw [h0] at this
  simp at this

theorem fmap_matches_append (pid : Int) (start : Nat) (a b : List fmap_fd) :
    fmap_matches pid start (a ++ b) = fmap_matches pid start a ++ fmap_matches pid start b := by
  simp [fmap_matches]

/-- C4, counterexample: after two `open_fmap` calls for process 1 and the region
at 4096, `get_filemap_fd (1, 4096)` hits (descriptor 6) and the call that follows
it for the same key hits again (descriptor 5). -/
theorem get_filemap_fd_second_hit :
    (get_filemap_fd 1 4096 (run_fmap [fmap_op.insert (env_ok 1 5) 1 (map_rec 4096),
        fmap_op.insert (env_ok 1 6) 1 (map_rec 4096)] [])).1 = 6 ∧
    (get_filemap_fd 1 4096 (get_filemap_fd 1 4096 (run_fmap
        [fmap_op.insert (env_ok 1 5) 1 (map_rec 4096),
         fmap_op.insert (env_ok 1 6) 1 (map_rec 4096)] [])).2).1 = 5 := by
  decide

/-- C4, amended. In a cache state reached by `open_fmap` insertions and
`get_filemap_fd` lookups that holds at most one entry with the key
`(pid, start)`: when `get_filemap_fd (pid, start)` returns a hit (not -1), the
call that follows it for the same key returns the miss -1. -/
theorem get_filemap_fd_one_shot (ops : List fmap_op) (pid : Int) (start : Nat)
    (huniq : (fmap_matches pid start (run_fmap ops [])).length ≤ 1)
    (hhit : (get_filemap_fd pid start (run_fmap ops [])).1 ≠ -1) :
    (get_filemap_fd pid start (get_filemap_fd pid start (run_fmap ops [])).2).1 = -1 := by
  generalize run_fmap ops [] = c at huniq hhit
  by_cases h : ∃ p ∈ c, p.start = start ∧ p.pid = pid
  · obtain ⟨l1, x, l2, e, hn, hx⟩ := first_match_split pid start c h
    subst e
    rw [get_filemap_fd_hit pid start l1 x l2 hn hx]
    have hx1 : fmap_matches pid start [x] = [x] := by simp [fmap_matches, hx.1, hx.2]
    have hlen : (fmap_matches pid start l1).length + (fmap_matches pid start l2).length = 0 := by
      have e2 : l1 ++ x :: l2 = l1 ++ ([x] ++ l2) := by simp
      rw [e2, fmap_matches_append, fmap_matches_append, hx1] at huniq
      simp only [List.length_append, List.length_singleton] at huniq
      omega
    have hnone : ∀ p ∈ l1 ++ l2, ¬(p.start = start ∧ p.pid = pid) := by
      apply fmap_matches_nil_of_length
      rw [fmap_matches_append, List.length_append]
      exact hlen
    rw [get_filemap_fd_miss pid start (l1 ++ l2) hnone]
  · have hnone : ∀ p ∈ c, ¬(p.start = start ∧ p.pid = pid) := by
      intro p hp hm
      exact h ⟨p, hp, hm⟩
    rw [get_filemap_fd_miss pid start c hnone]
    rw [get_filemap_fd_miss pid start c hnone]

/-- C4, amended, at the cache left by two insertions with different keys. -/
theorem get_filemap_fd_one_shot_witness :
    (fmap_matches 1 4096 (run_fmap [fmap_op.insert (env_ok 1 5) 1 (map_rec 4096),
        fmap_op.insert (env_ok 1 6) 1 (map_rec 8192)] [])).length ≤ 1 ∧
    (get_filemap_fd 1 4096 (run_fmap [fmap_op.insert (env_ok 1 5) 1 (map_rec 4096),
        fmap_op.insert (env_ok 1 6) 1 (map_rec 8192)] [])).1 ≠ -1 ∧
    (get_filemap_fd 1 4096 (get_filemap_fd 1 4096 (run_fmap
        [fmap_op.insert (env_ok 1 5) 1 (map_rec 4096),
         fmap_op.insert (env_ok 1 6) 1 (map_rec 8192)] [])).2).1 = -1 :=
  ⟨by decide, by decide,
   get_filemap_fd_one_shot [fmap_op.insert (env_ok 1 5) 1 (map_rec 4096),
     fmap_op.insert (env_ok 1 6) 1 (map_rec 8192)] 1 4096 (by decide) (by decide)⟩


/-! ## Transport names: theorems -/

theorem digitChar_ne_minus (d : Nat) (h : d < 10) : Nat.digitChar d ≠ '-' := by
  interval_cases d <;> decide

theorem digitChar_inj (a b : Nat) (ha : a < 10) (hb : b < 10)
    (h : Nat.digitChar a = Nat.digitChar b) : a = b := by
  interval_cases a <;> interval_cases b <;> first | rfl | (exact absurd h (by decide))

theorem decimal_ne_nil (n : Nat) : decimal n ≠ [] := by
  unfold decimal
  split
  · simp
  · rename_i h
    simp only [ne_eq, List.map_eq_nil_iff, List.reverse_eq_nil_iff]
    exact fun h2 => h (Nat.digits_eq_nil_iff_eq_zero.1 h2)

theorem decimal_no_minus (n : Nat) : '-' ∉ decimal n := by
  unfold decimal
  split
  · simp
  · intro hmem
    obtain ⟨d, hd, he⟩ := List.mem_map.1 hmem
    have hlt : d < 10 := Nat.digits_lt_base (by norm_num) (List.mem_reverse.1 hd)
    exact digitChar_ne_minus d hlt he

theorem decimal_length_le (n k : Nat) (hk : 0 < k) (h : n < 10 ^ k) : (decimal n).length ≤ k := by
  unfold decimal
  split
  · simpa using hk
  · simp only [List.length_map, List.length_reverse]
    rename_i hn
    have h1 := Nat.base_pow_length_digits_le 10 n (by norm_num) hn
    have h2 : 10 ^ (Nat.digits 10 n).length < 10 ^ (k + 1) := by
      rw [pow_succ]
      omega
    have h3 := (Nat.pow_lt_pow_iff_right (by norm_num : 1 < 10)).1 h2
    omega

theorem map_digitChar_inj (l1 l2 : List Nat) (h1 : ∀ d ∈ l1, d < 10) (h2 : ∀ d ∈ l2, d < 10)
    (h : l1.map Nat.digitChar = l2.map Nat.digitChar) : l1 = l2 := by
  induction l1 generalizing l2 with
  | nil =>
    cases l2 with
    | nil => rfl
    | cons b t => simp at h
  | cons a t ih =>
    cases l2 with
    | nil => simp at h
    | cons b t2 =>
      simp only [List.map_cons, List.cons.injEq] at h
      have hab := digitChar_inj a b (h1 a (List.mem_cons_self _ _)) (h2 b (List.mem_cons_self _ _)) h.1
      have ht := ih t2 (fun d hd => h1 d (List.mem_cons_of_mem _ hd))
        (fun d hd => h2 d (List.mem_cons_of_mem _ hd)) h.2
      rw [hab, ht]

theorem decimal_inj (a b : Nat) (h : decimal a = decimal b) : a = b := by
  unfold decimal at h
  have key : ∀ n : Nat, n ≠ 0 → ((Nat.digits 10 n).reverse.map Nat.digitChar) ≠ ['0'] := by
    intro n hn he
    have hlen : (Nat.digits 10 n).length = 1 := by
      have := congrArg List.length he
      simpa using this
    obtain ⟨d, hd⟩ := List.length_eq_one.1 hlen
    have hlast := Nat.getLast_digit_ne_zero 10 hn
    have hd0 : d ≠ 0 := by simpa [hd] using hlast
    have hlt : d < 10 := Nat.digits_lt_base (b := 10) (m := n) (by norm_num) (by simp [hd])
    rw [hd] at he
    simp only [List.reverse_singleton, List.map_cons, List.map_nil, List.cons.injEq, and_true] at he
    exact hd0 (digitChar_inj d 0 hlt (by norm_num) he)
  by_cases ha : a = 0 <;> by_cases hb : b = 0
  · rw [ha, hb]
  · rw [if_pos ha, if_neg hb] at h
    exact absurd h.symm (key b hb)
  · rw [if_neg ha, if_pos hb] at h
    exact absurd h (key a ha)
  · rw [if_neg ha, if_neg hb] at h
    have hrev : (Nat.digits 10 a).reverse = (Nat.digits 10 b).reverse :=
      map_digitChar_inj _ _
        (fun d hd => Nat.digits_lt_base (by norm_num) (List.mem_reverse.1 hd))
        (fun d hd => Nat.digits_lt_base (by norm_num) (List.mem_reverse.1 hd)) h
    exact Nat.digits.injective 10 (List.reverse_injective hrev)

theorem fmt_d_inj (x y : Int) (h : fmt_d x = fmt_d y) : x = y := by
  unfold fmt_d at h
  by_cases hx : x < 0 <;> by_cases hy : y < 0
  · rw [if_pos hx, if_pos hy] at h
    have := decimal_inj _ _ (List.cons.inj h).2
    omega
  · rw [if_pos hx, if_neg hy] at h
    have hm := decimal_no_minus y.natAbs
    rw [← h] at hm
    exact absurd (List.mem_cons_self _ _) hm
  · rw [if_neg hx, if_pos hy] at h
    have hm := decimal_no_minus x.natAbs
    rw [h] at hm
    exact absurd (List.mem_cons_self _ _) hm
  · rw [if_neg hx, if_neg hy] at h
    have := decimal_inj _ _ h
    omega

theorem split_at_minus (a b c d : List Char) (ha : '-' ∉ a) (hc : '-' ∉ c)
    (h : a ++ '-' :: b = c ++ '-' :: d) : a = c ∧ b = d := by
  induction a generalizing c with
  | nil =>
    cases c with
    | nil => simpa using h
    | cons y t =>
      simp only [List.nil_append, List.cons_append, List.cons.injEq] at h
      exact absurd (h.1 ▸ List.mem_cons_self _ _) hc
  | cons x s ih =>
    cases c with
    | nil =>
      simp only [List.nil_append, List.cons_append, List.cons.injEq] at h
      exact absurd (h.1 ▸ List.mem_cons_self _ _) ha
    | cons y t =>
      simp only [List.cons_append, List.cons.injEq] at h
      have := ih t (fun hm => ha (List.mem_cons_of_mem _ hm))
        (fun hm => hc (List.mem_cons_of_mem _ hm)) h.2
      exact ⟨by rw [h.1, this.1], this.2⟩

/-- The text of `%d-%ld` determines both numbers. -/
theorem fmt_pair_inj (p1 f1 p2 f2 : Int)
    (h : fmt_d p1 ++ '-' :: fmt_d f1 = fmt_d p2 ++ '-' :: fmt_d f2) : p1 = p2 ∧ f1 = f2 := by
  have hne1 := decimal_ne_nil p1.natAbs
  have hne2 := decimal_ne_nil p2.natAbs
  have hm1 := decimal_no_minus p1.natAbs
  have hm2 := decimal_no_minus p2.natAbs
  have key : fmt_d p1 = fmt_d p2 ∧ fmt_d f1 = fmt_d f2 := by
    unfold fmt_d at h ⊢
    by_cases hx : p1 < 0 <;> by_cases hy : p2 < 0
    · simp only [if_pos hx, if_pos hy, List.cons_append, List.cons.injEq, true_and] at h ⊢
      exact split_at_minus _ _ _ _ hm1 hm2 h
    · simp only [if_pos hx, if_neg hy, List.cons_append] at h ⊢
      exfalso
      cases hd : decimal p2.natAbs with
      | nil => exact hne2 hd
      | cons c t =>
        rw [hd] at h hm2
        simp only [List.cons_append, List.cons.injEq] at h
        exact hm2 (h.1 ▸ List.mem_cons_self _ _)
    · simp only [if_neg hx, if_pos hy, List.cons_append] at h ⊢
      exfalso
      cases hd : decimal p1.natAbs with
      | nil => exact hne1 hd
      | cons c t =>
        rw [hd] at h hm1
        simp only [List.cons_append, List.cons.injEq] at h
        exact hm1 (h.1 ▸ List.mem_cons_self _ _)
    · simp only [if_neg hx, if_neg hy] at h ⊢
      exact split_at_minus _ _ _ _ hm1 hm2 h
  exact ⟨fmt_d_inj _ _ key.1, fmt_d_inj _ _ key.2⟩

theorem fmt_d_length_int (x : Int) (h : is_int x) : (fmt_d x).length ≤ 11 := by
  unfold is_int at h
  have hb : x.natAbs < 10 ^ 10 := by omega
  have := decimal_length_le x.natAbs 10 (by norm_num) hb
  unfold fmt_d
  split
  · simp only [List.length_cons]; omega
  · omega

theorem fmt_d_length_long (x : Int) (h : is_long x) : (fmt_d x).length ≤ 20 := by
  unfold is_long at h
  have hb : x.natAbs < 10 ^ 19 := by omega
  have := decimal_length_le x.natAbs 19 (by norm_num) hb
  unfold fmt_d
  split
  · simp only [List.length_cons]; omega
  · omega

theorem name_text_length (pid fd : Int) (h1 : is_int pid) (h2 : is_long fd) :
    (name_text pid fd).length ≤ 45 := by
  have a := fmt_d_length_int pid h1
  have b := fmt_d_length_long fd h2
  simp only [name_text, List.length_append, List.length_cons, List.length_nil]
  omega

/-- C7. `transport_name_gen` is a function of `(pid, fd)`; for an `int` pid and a
`long` fd the formatted text is shorter than `UNIX_PATH_MAX`, so `snprintf` stores
it whole; and two different pairs give different (address bytes, length). -/
theorem transport_name_gen_unique (pid1 fd1 pid2 fd2 : Int)
    (h1 : is_int pid1) (h2 : is_long fd1) (h3 : is_int pid2) (h4 : is_long fd2) :
    (name_text pid1 fd1).length + 1 ≤ UNIX_PATH_MAX ∧
    snprintf_name UNIX_PATH_MAX pid1 fd1 = name_text pid1 fd1 ∧
    ((pid1, fd1) ≠ (pid2, fd2) → transport_name_gen pid1 fd1 ≠ transport_name_gen pid2 fd2) := by
  have l1 := name_text_length pid1 fd1 h1 h2
  have l2 := name_text_length pid2 fd2 h3 h4
  have t1 : snprintf_name UNIX_PATH_MAX pid1 fd1 = name_text pid1 fd1 := by
    unfold snprintf_name UNIX_PATH_MAX
    exact List.take_of_length_le (by omega)
  have t2 : snprintf_name UNIX_PATH_MAX pid2 fd2 = name_text pid2 fd2 := by
    unfold snprintf_name UNIX_PATH_MAX
    exact List.take_of_length_le (by omega)
  refine ⟨by unfold UNIX_PATH_MAX; omega, t1, ?_⟩
  intro hne heq
  apply hne
  unfold transport_name_gen at heq
  simp only [t1, t2, name_text, List.cons_append, List.nil_append, List.set_cons_zero,
    Prod.mk.injEq, List.cons.injEq, true_and] at heq
  have := fmt_pair_inj pid1 fd1 pid2 fd2 heq.1
  rw [this.1, this.2]

/-- C7, at the sharers (4, 3) and (4, 13) of one process: the names differ, and
the name of (4, 3) is NUL followed by `/crtools-fd-4-3`, of length 2 + 16. -/
theorem transport_name_gen_unique_witness :
    (is_int 4 ∧ is_long 3 ∧ is_int 4 ∧ is_long 13) ∧
    transport_name_gen 4 3 ≠ transport_name_gen 4 13 ∧
    transport_name_gen 4 3 =
      ([Char.ofNat 0, '/', 'c', 'r', 't', 'o', 'o', 'l', 's', '-', 'f', 'd', '-', '4', '-', '3'],
        18) :=
  ⟨by decide,
   (transport_name_gen_unique 4 3 4 13 (by decide) (by decide) (by decide) (by decide)).2.2
     (by decide),
   by
    norm_num [transport_name_gen, snprintf_name, name_text, fmt_d, decimal, UNIX_PATH_MAX]
    decide⟩



theorem scan_descs_some (s : Arena) (id i : Nat) (h : scan_descs s id = some i) :
    i < s.nr_fdinfo_descs ∧ (s.fdinfo_descs i).id = id := by
  unfold scan_descs at h
  have h1 := List.mem_of_find?_eq_some h
  have h2 := List.find?_some h
  exact ⟨List.mem_range.1 h1, by simpa using h2⟩

theorem scan_descs_none (s : Arena) (id : Nat) (h : scan_descs s id = none) :
    ∀ i, i < s.nr_fdinfo_descs → (s.fdinfo_descs i).id ≠ id := by
  unfold scan_descs at h
  intro i hi
  have := List.find?_eq_none.1 h i (List.mem_range.2 hi)
  simpa using this

theorem collect_fd_full (sz : Sizes) (pid : Int) (e : fdinfo_entry) (s : Arena)
    (h : (s.nr_fdinfo_list + 1) * sz.list_entry ≥ 4096) :
    collect_fd sz pid e s = (-1, { s with nr_fdinfo_list := s.nr_fdinfo_list + 1 }) := by
  simp only [collect_fd]
  rw [if_pos h]

theorem collect_fd_found (sz : Sizes) (pid : Int) (e : fdinfo_entry) (s : Arena) (i : Nat)
    (h : ¬ (s.nr_fdinfo_list + 1) * sz.list_entry ≥ 4096) (hf : scan_descs s e.id = some i) :
    collect_fd sz pid e s =
      (0, { fdinfo_descs := Function.update s.fdinfo_descs i
              { id := (s.fdinfo_descs i).id,
                addr := if (s.fdinfo_descs i).pid < pid then (s.fdinfo_descs i).addr else e.addr,
                pid := if (s.fdinfo_descs i).pid < pid then (s.fdinfo_descs i).pid else pid,
                real_pid := (s.fdinfo_descs i).real_pid,
                users := ((s.fdinfo_descs i).users + 1) % 2 ^ 32,
                list := s.nr_fdinfo_list :: (s.fdinfo_descs i).list },
            nr_fdinfo_descs := s.nr_fdinfo_descs,
            fdinfo_list := Function.update s.fdinfo_list s.nr_fdinfo_list ⟨to_int e.addr, pid, 0⟩,
            nr_fdinfo_list := s.nr_fdinfo_list + 1 }) := by
  have hf2 : scan_descs
      { fdinfo_descs := s.fdinfo_descs, nr_fdinfo_descs := s.nr_fdinfo_descs,
        fdinfo_list := Function.update s.fdinfo_list s.nr_fdinfo_list ⟨to_int e.addr, pid, 0⟩,
        nr_fdinfo_list := s.nr_fdinfo_list + 1 } e.id = some i := hf
  simp only [collect_fd]
  rw [if_neg h]
  simp only [hf2, list_add]
  by_cases hp : (s.fdinfo_descs i).pid < pid
  · simp only [if_pos hp]
  · simp only [if_neg hp]

theorem collect_fd_no_room (sz : Sizes) (pid : Int) (e : fdinfo_entry) (s : Arena)
    (h : ¬ (s.nr_fdinfo_list + 1) * sz.list_entry ≥ 4096) (hf : scan_descs s e.id = none)
    (hc : (s.nr_fdinfo_descs + 1) * sz.desc ≥ 4096) :
    collect_fd sz pid e s =
      (-1, { fdinfo_descs := s.fdinfo_descs,
             nr_fdinfo_descs := s.nr_fdinfo_descs,
             fdinfo_list := Function.update s.fdinfo_list s.nr_fdinfo_list ⟨to_int e.addr, pid, 0⟩,
             nr_fdinfo_list := s.nr_fdinfo_list + 1 }) := by
  have hf2 : scan_descs
      { fdinfo_descs := s.fdinfo_descs, nr_fdinfo_descs := s.nr_fdinfo_descs,
        fdinfo_list := Function.update s.fdinfo_list s.nr_fdinfo_list ⟨to_int e.addr, pid, 0⟩,
        nr_fdinfo_list := s.nr_fdinfo_list + 1 } e.id = none := hf
  simp only [collect_fd]
  rw [if_neg h]
  simp only [hf2]
  rw [if_pos hc]

theorem collect_fd_new (sz : Sizes) (pid : Int) (e : fdinfo_entry) (s : Arena)
    (h : ¬ (s.nr_fdinfo_list + 1) * sz.list_entry ≥ 4096) (hf : scan_descs s e.id = none)
    (hc : ¬ (s.nr_fdinfo_descs + 1) * sz.desc ≥ 4096) :
    collect_fd sz pid e s =
      (0, { fdinfo_descs := Function.update s.fdinfo_descs s.nr_fdinfo_descs
              { id := e.id, addr := e.addr, pid := pid, real_pid := 0, users := 1,
                list := [s.nr_fdinfo_list] },
            nr_fdinfo_descs := s.nr_fdinfo_descs + 1,
            fdinfo_list := Function.update s.fdinfo_list s.nr_fdinfo_list ⟨to_int e.addr, pid, 0⟩,
            nr_fdinfo_list := s.nr_fdinfo_list + 1 }) := by
  have hf2 : scan_descs
      { fdinfo_descs := s.fdinfo_descs, nr_fdinfo_descs := s.nr_fdinfo_descs,
        fdinfo_list := Function.update s.fdinfo_list s.nr_fdinfo_list ⟨to_int e.addr, pid, 0⟩,
        nr_fdinfo_list := s.nr_fdinfo_list + 1 } e.id = none := hf
  simp only [collect_fd]
  rw [if_neg h]
  simp only [hf2, list_add]
  rw [if_neg hc]


theorem nodup_length_le (l : List Nat) (n : Nat) (hd : l.Nodup) (hb : ∀ k ∈ l, k < n) :
    l.length ≤ n := by
  have h1 : l.toFinset ⊆ Finset.range n := by
    intro k hk
    exact Finset.mem_range.2 (hb k (List.mem_toFinset.1 hk))
  have h2 := Finset.card_le_card h1
  rw [List.toFinset_card_of_nodup hd, Finset.card_range] at h2
  exact h2

theorem inv_list_length (sz : Sizes) (H : List (Int × fdinfo_entry)) (s : Arena) (h : Inv sz H s)
    (i : Nat) (hi : i < s.nr_fdinfo_descs) : (s.fdinfo_descs i).list.length < 4096 := by
  have hb : ∀ k ∈ (s.fdinfo_descs i).list, k < 4095 := by
    intro k hk
    have h1 := (h.list_lt i hi k hk).2
    have h2 : (k + 1) * 1 ≤ (k + 1) * sz.list_entry := Nat.mul_le_mul_left _ sz.list_entry_pos
    omega
  have := nodup_length_le _ 4095 (h.list_nodup i hi) hb
  omega

theorem inv_full (sz : Sizes) (H : List (Int × fdinfo_entry)) (s : Arena) (h : Inv sz H s) :
    Inv sz H { s with nr_fdinfo_list := s.nr_fdinfo_list + 1 } := by
  refine ⟨h.ids_inj, h.cap, ?_, h.list_nodup, h.users_eq, h.list_count, h.entry_hist,
    h.hist_entry, h.owner_le, h.owner_mem⟩
  intro i hi k hk
  have := h.list_lt i hi k hk
  exact ⟨Nat.lt_succ_of_lt this.1, this.2⟩

theorem inv_no_room (sz : Sizes) (H : List (Int × fdinfo_entry)) (s : Arena) (pid : Int)
    (e : fdinfo_entry) (h : Inv sz H s) :
    Inv sz H
      { fdinfo_descs := s.fdinfo_descs,
        nr_fdinfo_descs := s.nr_fdinfo_descs,
        fdinfo_list := Function.update s.fdinfo_list s.nr_fdinfo_list ⟨to_int e.addr, pid, 0⟩,
        nr_fdinfo_list := s.nr_fdinfo_list + 1 } := by
  have hne : ∀ j, j < s.nr_fdinfo_descs → ∀ k ∈ (s.fdinfo_descs j).list,
      k ≠ s.nr_fdinfo_list := fun j hj k hk => Nat.ne_of_lt (h.list_lt j hj k hk).1
  refine ⟨h.ids_inj, h.cap, ?_, h.list_nodup, h.users_eq, h.list_count, ?_, ?_,
    h.owner_le, h.owner_mem⟩
  · intro i hi k hk
    have := h.list_lt i hi k hk
    exact ⟨Nat.lt_succ_of_lt this.1, this.2⟩
  · intro i hi k hk
    obtain ⟨c, hc, h1, h2⟩ := h.entry_hist i hi k hk
    refine ⟨c, hc, h1, ?_⟩
    show Function.update s.fdinfo_list s.nr_fdinfo_list _ k = _
    rw [Function.update_noteq (hne i hi k hk)]
    exact h2
  · intro c hc
    obtain ⟨i, hi, h1, k, hk, h2⟩ := h.hist_entry c hc
    refine ⟨i, hi, h1, k, hk, ?_⟩
    show Function.update s.fdinfo_list s.nr_fdinfo_list _ k = _
    rw [Function.update_noteq (hne i hi k hk)]
    exact h2


theorem inv_found (sz : Sizes) (H : List (Int × fdinfo_entry)) (s : Arena) (pid : Int)
    (e : fdinfo_entry) (i : Nat) (h : Inv sz H s)
    (hA : (s.nr_fdinfo_list + 1) * sz.list_entry < 4096)
    (hi : i < s.nr_fdinfo_descs) (hid : (s.fdinfo_descs i).id = e.id) (d1 : fdinfo_desc)
    (h_id : d1.id = (s.fdinfo_descs i).id)
    (h_list : d1.list = s.nr_fdinfo_list :: (s.fdinfo_descs i).list)
    (h_users : d1.users = ((s.fdinfo_descs i).users + 1) % 2 ^ 32)
    (h_pid : d1.pid = if (s.fdinfo_descs i).pid < pid then (s.fdinfo_descs i).pid else pid)
    (h_addr : d1.addr = if (s.fdinfo_descs i).pid < pid then (s.fdinfo_descs i).addr else e.addr) :
    Inv sz (H ++ [(pid, e)])
      { fdinfo_descs := Function.update s.fdinfo_descs i d1,
        nr_fdinfo_descs := s.nr_fdinfo_descs,
        fdinfo_list := Function.update s.fdinfo_list s.nr_fdinfo_list ⟨to_int e.addr, pid, 0⟩,
        nr_fdinfo_list := s.nr_fdinfo_list + 1 } := by
  have hne : ∀ j, j < s.nr_fdinfo_descs → ∀ k ∈ (s.fdinfo_descs j).list,
      k ≠ s.nr_fdinfo_list := fun j hj k hk => Nat.ne_of_lt (h.list_lt j hj k hk).1
  have hlen := inv_list_length sz H s h i hi
  have hidj : ∀ j, (Function.update s.fdinfo_descs i d1 j).id = (s.fdinfo_descs j).id := by
    intro j
    by_cases hji : j = i
    · rw [hji, Function.update_same, h_id]
    · rw [Function.update_noteq hji]
  have hsub : ∀ j, ∀ k ∈ (s.fdinfo_descs j).list,
      k ∈ (Function.update s.fdinfo_descs i d1 j).list := by
    intro j k hk
    by_cases hji : j = i
    · rw [hji, Function.update_same, h_list]
      rw [hji] at hk
      exact List.mem_cons_of_mem _ hk
    · rw [Function.update_noteq hji]
      exact hk
  have hother : ∀ j, j < s.nr_fdinfo_descs → j ≠ i → (s.fdinfo_descs j).id ≠ e.id := by
    intro j hj hji hje
    exact hji (h.ids_inj j i hj hi (hje.trans hid.symm))
  refine ⟨?_, h.cap, ?_, ?_, ?_, ?_, ?_, ?_, ?_, ?_⟩
  · intro a b ha hb hab
    dsimp only at ha hb hab
    rw [hidj a, hidj b] at hab
    exact h.ids_inj a b ha hb hab
  · intro j hj k hk
    dsimp only at hj hk ⊢
    by_cases hji : j = i
    · rw [hji, Function.update_same, h_list] at hk
      rcases List.mem_cons.1 hk with hk1 | hk1
      · rw [hk1]
        exact ⟨Nat.lt_succ_self _, hA⟩
      · have := h.list_lt i hi k hk1
        exact ⟨Nat.lt_succ_of_lt this.1, this.2⟩
    · rw [Function.update_noteq hji] at hk
      have := h.list_lt j hj k hk
      exact ⟨Nat.lt_succ_of_lt this.1, this.2⟩
  · intro j hj
    dsimp only at hj ⊢
    by_cases hji : j = i
    · rw [hji, Function.update_same, h_list]
      exact List.nodup_cons.2 ⟨fun hm => hne i hi _ hm rfl, h.list_nodup i hi⟩
    · rw [Function.update_noteq hji]
      exact h.list_nodup j hj
  · intro j hj
    dsimp only at hj ⊢
    by_cases hji : j = i
    · rw [hji, Function.update_same, h_users, h_list, h.users_eq i hi, List.length_cons]
      exact Nat.mod_eq_of_lt (by omega)
    · rw [Function.update_noteq hji]
      exact h.users_eq j hj
  · intro j hj
    dsimp only at hj ⊢
    rw [hidj j, List.filter_append, List.length_append]
    by_cases hji : j = i
    · rw [hji, Function.update_same, h_list, List.length_cons, h.list_count i hi]
      simp [hid]
    · rw [Function.update_noteq hji, h.list_count j hj]
      have := hother j hj hji
      simp [Ne.symm this]
  · intro j hj k hk
    dsimp only at hj hk ⊢
    rw [hidj j]
    have old : ∀ k ∈ (s.fdinfo_descs j).list, ∃ c ∈ H ++ [(pid, e)],
        c.2.id = (s.fdinfo_descs j).id ∧
        Function.update s.fdinfo_list s.nr_fdinfo_list ⟨to_int e.addr, pid, 0⟩ k =
          ⟨to_int c.2.addr, c.1, 0⟩ := by
      intro k hk
      obtain ⟨c, hc, h1, h2⟩ := h.entry_hist j hj k hk
      refine ⟨c, List.mem_append_left _ hc, h1, ?_⟩
      rw [Function.update_noteq (hne j hj k hk)]
      exact h2
    by_cases hji : j = i
    · rw [hji, Function.update_same, h_list] at hk
      rcases List.mem_cons.1 hk with hk1 | hk1
      · refine ⟨(pid, e), by simp, ?_, ?_⟩
        · rw [hji]; exact hid.symm
        · rw [hk1, Function.update_same]
      · exact old k (hji ▸ hk1)
    · rw [Function.update_noteq hji] at hk
      exact old k hk
  · intro c hc
    dsimp only
    rcases List.mem_append.1 hc with hc1 | hc1
    · obtain ⟨j, hj, h1, k, hk, h2⟩ := h.hist_entry c hc1
      refine ⟨j, hj, (hidj j).trans h1, k, hsub j k hk, ?_⟩
      rw [Function.update_noteq (hne j hj k hk)]
      exact h2
    · have hce : c = (pid, e) := by simpa using hc1
      refine ⟨i, hi, (hidj i).trans (by rw [hce]; exact hid), s.nr_fdinfo_list, ?_, ?_⟩
      · rw [Function.update_same, h_list]
        exact List.mem_cons_self _ _
      · rw [Function.update_same, hce]
  · intro j hj c hc hcid
    dsimp only at hj hcid ⊢
    rw [hidj j] at hcid
    by_cases hji : j = i
    · rw [hji, Function.update_same, h_pid]
      rw [hji] at hcid
      rcases List.mem_append.1 hc with hc1 | hc1
      · have := h.owner_le i hi c hc1 hcid
        split <;> omega
      · have hce : c = (pid, e) := by simpa using hc1
        rw [hce]
        dsimp only
        split <;> omega
    · rw [Function.update_noteq hji]
      rcases List.mem_append.1 hc with hc1 | hc1
      · exact h.owner_le j hj c hc1 hcid
      · have hce : c = (pid, e) := by simpa using hc1
        rw [hce] at hcid
        exact absurd hcid.symm (hother j hj hji)
  · intro j hj
    dsimp only at hj ⊢
    rw [hidj j]
    by_cases hji : j = i
    · rw [hji, Function.update_same, h_pid, h_addr]
      by_cases hp : (s.fdinfo_descs i).pid < pid
      · rw [if_pos hp, if_pos hp]
        obtain ⟨c, hc, h1, h2, h3⟩ := h.owner_mem i hi
        exact ⟨c, List.mem_append_left _ hc, h1, h2, h3⟩
      · rw [if_neg hp, if_neg hp]
        exact ⟨(pid, e), by simp, hid.symm, rfl, rfl⟩
    · rw [Function.update_noteq hji]
      obtain ⟨c, hc, h1, h2, h3⟩ := h.owner_mem j hj
      exact ⟨c, List.mem_append_left _ hc, h1, h2, h3⟩


theorem inv_new (sz : Sizes) (H : List (Int × fdinfo_entry)) (s : Arena) (pid : Int)
    (e : fdinfo_entry) (h : Inv sz H s)
    (hA : (s.nr_fdinfo_list + 1) * sz.list_entry < 4096)
    (hnone : ∀ j, j < s.nr_fdinfo_descs → (s.fdinfo_descs j).id ≠ e.id)
    (hC : (s.nr_fdinfo_descs + 1) * sz.desc < 4096) :
    Inv sz (H ++ [(pid, e)])
      { fdinfo_descs := Function.update s.fdinfo_descs s.nr_fdinfo_descs
          { id := e.id, addr := e.addr, pid := pid, real_pid := 0, users := 1,
            list := [s.nr_fdinfo_list] },
        nr_fdinfo_descs := s.nr_fdinfo_descs + 1,
        fdinfo_list := Function.update s.fdinfo_list s.nr_fdinfo_list ⟨to_int e.addr, pid, 0⟩,
        nr_fdinfo_list := s.nr_fdinfo_list + 1 } := by
  have hne : ∀ j, j < s.nr_fdinfo_descs → ∀ k ∈ (s.fdinfo_descs j).list,
      k ≠ s.nr_fdinfo_list := fun j hj k hk => Nat.ne_of_lt (h.list_lt j hj k hk).1
  have hold : ∀ j, j < s.nr_fdinfo_descs → ∀ d : fdinfo_desc,
      Function.update s.fdinfo_descs s.nr_fdinfo_descs d j = s.fdinfo_descs j :=
    fun j hj d => Function.update_noteq (Nat.ne_of_lt hj) _ _
  have hcases : ∀ j, j < s.nr_fdinfo_descs + 1 → j < s.nr_fdinfo_descs ∨ j = s.nr_fdinfo_descs :=
    fun j hj => by omega
  have hH : ∀ c ∈ H, c.2.id ≠ e.id := by
    intro c hc hce
    obtain ⟨j, hj, h1, _⟩ := h.hist_entry c hc
    exact hnone j hj (h1.trans hce)
  refine ⟨?_, ?_, ?_, ?_, ?_, ?_, ?_, ?_, ?_, ?_⟩
  · intro a b ha hb hab
    dsimp only at ha hb hab
    rcases hcases a ha with ha1 | ha1 <;> rcases hcases b hb with hb1 | hb1
    · rw [hold a ha1, hold b hb1] at hab
      exact h.ids_inj a b ha1 hb1 hab
    · rw [hold a ha1, hb1, Function.update_same] at hab
      exact absurd hab (hnone a ha1)
    · rw [hold b hb1, ha1, Function.update_same] at hab
      exact absurd hab.symm (hnone b hb1)
    · rw [ha1, hb1]
  · intro j hj
    dsimp only at hj
    rcases hcases j hj with hj1 | hj1
    · exact h.cap j hj1
    · rw [hj1]; exact hC
  · intro j hj k hk
    dsimp only at hj hk ⊢
    rcases hcases j hj with hj1 | hj1
    · rw [hold j hj1] at hk
      have := h.list_lt j hj1 k hk
      exact ⟨Nat.lt_succ_of_lt this.1, this.2⟩
    · rw [hj1, Function.update_same] at hk
      have hk1 : k = s.nr_fdinfo_list := by simpa using hk
      rw [hk1]
      exact ⟨Nat.lt_succ_self _, hA⟩
  · intro j hj
    dsimp only at hj ⊢
    rcases hcases j hj with hj1 | hj1
    · rw [hold j hj1]
      exact h.list_nodup j hj1
    · rw [hj1, Function.update_same]
      exact List.nodup_singleton _
  · intro j hj
    dsimp only at hj ⊢
    rcases hcases j hj with hj1 | hj1
    · rw [hold j hj1]
      exact h.users_eq j hj1
    · rw [hj1, Function.update_same]
      rfl
  · intro j hj
    dsimp only at hj ⊢
    rw [List.filter_append, List.length_append]
    rcases hcases j hj with hj1 | hj1
    · rw [hold j hj1, h.list_count j hj1]
      have := hnone j hj1
      simp [Ne.symm this]
    · rw [hj1, Function.update_same]
      have h0 : H.filter (fun c => decide (c.2.id = e.id)) = [] := by
        apply List.filter_eq_nil_iff.2
        intro c hc
        simpa using hH c hc
      simp [h0]
  · intro j hj k hk
    dsimp only at hj hk ⊢
    rcases hcases j hj with hj1 | hj1
    · rw [hold j hj1] at hk ⊢
      obtain ⟨c, hc, h1, h2⟩ := h.entry_hist j hj1 k hk
      refine ⟨c, List.mem_append_left _ hc, h1, ?_⟩
      rw [Function.update_noteq (hne j hj1 k hk)]
      exact h2
    · rw [hj1, Function.update_same] at hk ⊢
      have hk1 : k = s.nr_fdinfo_list := by simpa using hk
      refine ⟨(pid, e), by simp, rfl, ?_⟩
      rw [hk1, Function.update_same]
  · intro c hc
    dsimp only
    rcases List.mem_append.1 hc with hc1 | hc1
    · obtain ⟨j, hj, h1, k, hk, h2⟩ := h.hist_entry c hc1
      refine ⟨j, Nat.lt_succ_of_lt hj, ?_, k, ?_, ?_⟩
      · rw [hold j hj]; exact h1
      · rw [hold j hj]; exact hk
      · rw [Function.update_noteq (hne j hj k hk)]
        exact h2
    · have hce : c = (pid, e) := by simpa using hc1
      refine ⟨s.nr_fdinfo_descs, Nat.lt_succ_self _, ?_, s.nr_fdinfo_list, ?_, ?_⟩
      · rw [Function.update_same, hce]
      · rw [Function.update_same]
        exact List.mem_singleton_self _
      · rw [Function.update_same, hce]
  · intro j hj c hc hcid
    dsimp only at hj hcid ⊢
    rcases hcases j hj with hj1 | hj1
    · rw [hold j hj1] at hcid ⊢
      rcases List.mem_append.1 hc with hc1 | hc1
      · exact h.owner_le j hj1 c hc1 hcid
      · have hce : c = (pid, e) := by simpa using hc1
        rw [hce] at hcid
        exact absurd hcid.symm (hnone j hj1)
    · rw [hj1, Function.update_same] at hcid ⊢
      rcases List.mem_append.1 hc with hc1 | hc1
      · exact absurd hcid (hH c hc1)
      · have hce : c = (pid, e) := by simpa using hc1
        rw [hce]
  · intro j hj
    dsimp only at hj ⊢
    rcases hcases j hj with hj1 | hj1
    · rw [hold j hj1]
      obtain ⟨c, hc, h1, h2, h3⟩ := h.owner_mem j hj1
      exact ⟨c, List.mem_append_left _ hc, h1, h2, h3⟩
    · rw [hj1, Function.update_same]
      exact ⟨(pid, e), by simp, rfl, rfl, rfl⟩

/-- One `collect_fd` call keeps the invariant; the call joins the history when
it returns 0. -/
theorem collect_fd_inv (sz : Sizes) (H : List (Int × fdinfo_entry)) (s : Arena) (pid : Int)
    (e : fdinfo_entry) (h : Inv sz H s) :
    ((collect_fd sz pid e s).1 = 0 ∨ (collect_fd sz pid e s).1 = -1) ∧
    Inv sz (if (collect_fd sz pid e s).1 = 0 then H ++ [(pid, e)] else H)
      (collect_fd sz pid e s).2 := by
  by_cases hA : (s.nr_fdinfo_list + 1) * sz.list_entry ≥ 4096
  · rw [collect_fd_full sz pid e s hA]
    exact ⟨Or.inr rfl, inv_full sz H s h⟩
  · cases hf : scan_descs s e.id with
    | some i =>
      rw [collect_fd_found sz pid e s i hA hf]
      obtain ⟨hi, hid⟩ := scan_descs_some s e.id i hf
      refine ⟨Or.inl rfl, ?_⟩
      rw [if_pos rfl]
      exact inv_found sz H s pid e i h (by omega) hi hid _ rfl rfl rfl rfl rfl
    | none =>
      have hnone := scan_descs_none s e.id hf
      by_cases hC : (s.nr_fdinfo_descs + 1) * sz.desc ≥ 4096
      · rw [collect_fd_no_room sz pid e s hA hf hC]
        exact ⟨Or.inr rfl, inv_no_room sz H s pid e h⟩
      · rw [collect_fd_new sz pid e s hA hf hC]
        refine ⟨Or.inl rfl, ?_⟩
        rw [if_pos rfl]
        exact inv_new sz H s pid e h (by omega) hnone (by omega)

theorem inv_empty (sz : Sizes) : Inv sz [] prepare_shared_fdinfo := by
  refine ⟨?_, ?_, ?_, ?_, ?_, ?_, ?_, ?_, ?_, ?_⟩ <;>
    simp [prepare_shared_fdinfo]

theorem run_collect_length (sz : Sizes) (calls : List (Int × fdinfo_entry)) (s : Arena) :
    (run_collect sz calls s).1.length = calls.length := by
  induction calls generalizing s with
  | nil => rfl
  | cons c cs ih => simp [run_collect, ih]

theorem succeeded_cons (c : Int × fdinfo_entry) (cs : List (Int × fdinfo_entry)) (r : Int)
    (rs : List Int) :
    succeeded (c :: cs) (r :: rs) = (if r = 0 then [c] else []) ++ succeeded cs rs := by
  unfold succeeded
  by_cases hr : r = 0 <;> simp [List.filter_cons, hr]

/-- The invariant holds along any sequence of calls, with the calls that
returned 0 as history. -/
theorem run_collect_inv (sz : Sizes) (calls : List (Int × fdinfo_entry)) (H : List (Int × fdinfo_entry))
    (s : Arena) (h : Inv sz H s) :
    Inv sz (H ++ succeeded calls (run_collect sz calls s).1) (run_collect sz calls s).2 := by
  induction calls generalizing H s with
  | nil => simpa [run_collect, succeeded] using h
  | cons c cs ih =>
    have step := (collect_fd_inv sz H s c.1 c.2 h).2
    have := ih _ _ step
    simp only [run_collect]
    rw [succeeded_cons]
    by_cases hr : (collect_fd sz c.1 c.2 s).1 = 0
    · rw [if_pos hr] at this ⊢
      simpa [List.append_assoc] using this
    · rw [if_neg hr] at this ⊢
      simpa using this

theorem succeeded_all (calls : List (Int × fdinfo_entry)) (rets : List Int)
    (hl : rets.length = calls.length) (h : ∀ r ∈ rets, r = 0) : succeeded calls rets = calls := by
  induction calls generalizing rets with
  | nil => simp [succeeded]
  | cons c cs ih =>
    cases rets with
    | nil => simp at hl
    | cons r rs =>
      rw [succeeded_cons, if_pos (h r (List.mem_cons_self _ _))]
      rw [ih rs (by simpa using hl) (fun x hx => h x (List.mem_cons_of_mem _ hx))]
      rfl


theorem run_collect_rets (sz : Sizes) (calls : List (Int × fdinfo_entry))
    (H : List (Int × fdinfo_entry)) (s : Arena) (h : Inv sz H s) :
    ∀ r ∈ (run_collect sz calls s).1, r = 0 ∨ r = -1 := by
  induction calls generalizing H s with
  | nil => simp [run_collect]
  | cons c cs ih =>
    have step := collect_fd_inv sz H s c.1 c.2 h
    intro r hr
    simp only [run_collect, List.mem_cons] at hr
    rcases hr with hr | hr
    · rw [hr]; exact step.1
    · exact ih _ _ step.2 r hr

theorem find_fd_of_inv (sz : Sizes) (H : List (Int × fdinfo_entry)) (s : Arena) (h : Inv sz H s)
    (i : Nat) (hi : i < s.nr_fdinfo_descs) (id : Nat) (hid : (s.fdinfo_descs i).id = id) :
    find_fd s id = some i := by
  unfold find_fd
  cases hf : scan_descs s id with
  | none => exact absurd hid (scan_descs_none s id hf i hi)
  | some j =>
    obtain ⟨hj, hjid⟩ := scan_descs_some s id j hf
    rw [h.ids_inj j i hj hi (hjid.trans hid.symm)]

/-- The arena after a sequence of calls that all returned 0 satisfies the
invariant with the whole sequence as history. -/
theorem run_collect_inv_ok (sz : Sizes) (calls : List (Int × fdinfo_entry))
    (hok : ∀ r ∈ (run_collect sz calls prepare_shared_fdinfo).1, r = 0) :
    Inv sz calls (run_collect sz calls prepare_shared_fdinfo).2 := by
  have h := run_collect_inv sz calls [] prepare_shared_fdinfo (inv_empty sz)
  rw [succeeded_all calls _ (run_collect_length sz calls _) hok] at h
  simpa using h

/-- C1, counterexample: collecting the pids 3, 7, 5 in this order for the one
identity 9 succeeds three times and leaves 3, not 7, as the recorded owner. -/
theorem collect_fd_owner_not_largest :
    (run_collect sizes64 [(3, reg 4 9), (7, reg 4 9), (5, reg 4 9)] prepare_shared_fdinfo).1
      = [0, 0, 0] ∧
    find_fd (run_collect sizes64 [(3, reg 4 9), (7, reg 4 9), (5, reg 4 9)]
      prepare_shared_fdinfo).2 9 = some 0 ∧
    ((run_collect sizes64 [(3, reg 4 9), (7, reg 4 9), (5, reg 4 9)]
      prepare_shared_fdinfo).2.fdinfo_descs 0).pid = 3 := by
  decide

/-- C1, amended. After a sequence of `collect_fd` calls from the empty arena that all
return 0, every identity collected has a descriptor, found by `find_fd`, whose
recorded owner `pid` is the numerically smallest process id among the
(pid, record) pairs collected for that identity: it is the pid of one of them
and is at most the pid of each of them.  This does not depend on the order of
the calls. -/
theorem collect_fd_owner_smallest (sz : Sizes) (calls : List (Int × fdinfo_entry))
    (hok : ∀ r ∈ (run_collect sz calls prepare_shared_fdinfo).1, r = 0) :
    ∀ c ∈ calls, ∃ i, find_fd (run_collect sz calls prepare_shared_fdinfo).2 c.2.id = some i ∧
      (∃ c1 ∈ calls, c1.2.id = c.2.id ∧
        c1.1 = ((run_collect sz calls prepare_shared_fdinfo).2.fdinfo_descs i).pid) ∧
      (∀ c1 ∈ calls, c1.2.id = c.2.id →
        ((run_collect sz calls prepare_shared_fdinfo).2.fdinfo_descs i).pid ≤ c1.1) := by
  have h := run_collect_inv_ok sz calls hok
  intro c hc
  obtain ⟨i, hi, hid, _⟩ := h.hist_entry c hc
  refine ⟨i, find_fd_of_inv sz calls _ h i hi c.2.id hid, ?_, ?_⟩
  · obtain ⟨c1, hc1, h1, h2, _⟩ := h.owner_mem i hi
    exact ⟨c1, hc1, h1.trans hid, h2⟩
  · intro c1 hc1 h1
    exact h.owner_le i hi c1 hc1 (h1.trans hid.symm)

/-- C1, amended, at the pids 7, 3, 5 collected for the identity 9: the owner is 3. -/
theorem collect_fd_owner_smallest_witness :
    (∀ r ∈ (run_collect sizes64 [(7, reg 4 9), (3, reg 4 9), (5, reg 4 9)]
      prepare_shared_fdinfo).1, r = 0) ∧
    ∀ c ∈ [((7 : Int), reg 4 9), (3, reg 4 9), (5, reg 4 9)],
      ∃ i, find_fd (run_collect sizes64 [(7, reg 4 9), (3, reg 4 9), (5, reg 4 9)]
          prepare_shared_fdinfo).2 c.2.id = some i ∧
        (∃ c1 ∈ [((7 : Int), reg 4 9), (3, reg 4 9), (5, reg 4 9)], c1.2.id = c.2.id ∧
          c1.1 = ((run_collect sizes64 [(7, reg 4 9), (3, reg 4 9), (5, reg 4 9)]
            prepare_shared_fdinfo).2.fdinfo_descs i).pid) ∧
        (∀ c1 ∈ [((7 : Int), reg 4 9), (3, reg 4 9), (5, reg 4 9)], c1.2.id = c.2.id →
          ((run_collect sizes64 [(7, reg 4 9), (3, reg 4 9), (5, reg 4 9)]
            prepare_shared_fdinfo).2.fdinfo_descs i).pid ≤ c1.1) :=
  ⟨by decide,
   collect_fd_owner_smallest sizes64 [(7, reg 4 9), (3, reg 4 9), (5, reg 4 9)] (by decide)⟩

/-- C2. After any sequence of `collect_fd` calls from the empty arena, whatever
they returned, no two of the first `nr_fdinfo_descs` descriptors have the same
id, and the identity of every call that returned 0 has exactly one descriptor
among them, which is the one `find_fd` returns. -/
theorem arena_one_desc_per_id (sz : Sizes) (calls : List (Int × fdinfo_entry)) :
    (∀ i j, i < (run_collect sz calls prepare_shared_fdinfo).2.nr_fdinfo_descs →
      j < (run_collect sz calls prepare_shared_fdinfo).2.nr_fdinfo_descs →
      ((run_collect sz calls prepare_shared_fdinfo).2.fdinfo_descs i).id =
        ((run_collect sz calls prepare_shared_fdinfo).2.fdinfo_descs j).id → i = j) ∧
    (∀ c ∈ succeeded calls (run_collect sz calls prepare_shared_fdinfo).1,
      ∃ i, find_fd (run_collect sz calls prepare_shared_fdinfo).2 c.2.id = some i ∧
        i < (run_collect sz calls prepare_shared_fdinfo).2.nr_fdinfo_descs ∧
        ((run_collect sz calls prepare_shared_fdinfo).2.fdinfo_descs i).id = c.2.id ∧
        ∀ j, j < (run_collect sz calls prepare_shared_fdinfo).2.nr_fdinfo_descs →
          ((run_collect sz calls prepare_shared_fdinfo).2.fdinfo_descs j).id = c.2.id → j = i) := by
  have h := run_collect_inv sz calls [] prepare_shared_fdinfo (inv_empty sz)
  rw [List.nil_append] at h
  refine ⟨h.ids_inj, ?_⟩
  intro c hc
  obtain ⟨i, hi, hid, _⟩ := h.hist_entry c hc
  refine ⟨i, find_fd_of_inv sz _ _ h i hi c.2.id hid, hi, hid, ?_⟩
  intro j hj hjid
  exact h.ids_inj j i hj hi (hjid.trans hid.symm)


theorem prepare_fd_pid_loop_events (sz : Sizes) (pid : Int) (eof : Bool)
    (records : List fdinfo_entry) (s : Arena) :
    ∀ ev ∈ (prepare_fd_pid_loop sz pid eof records s).2.2, ev.opens_record_path = false := by
  induction records generalizing s with
  | nil =>
    intro ev hev
    simp only [prepare_fd_pid_loop, List.mem_singleton] at hev
    rw [hev]; rfl
  | cons e es ih =>
    intro ev hev
    have hskip : ∀ ev ∈ (if e.len ≠ 0 then [Event.lseek_cur e.len] else []),
        ev.opens_record_path = false := by
      intro ev hev
      split at hev
      · rw [List.mem_singleton.1 hev]; rfl
      · simp at hev
    simp only [prepare_fd_pid_loop] at hev
    split at hev
    · simp only [List.mem_cons, List.mem_append] at hev
      rcases hev with (h1 | h1) | h1
      · rw [h1]; rfl
      · exact hskip ev h1
      · exact ih s ev h1
    · split at hev
      · simp only [List.mem_cons] at hev
        rcases hev with h1 | h1
        · rw [h1]; rfl
        · exact hskip ev h1
      · simp only [List.mem_cons, List.mem_append] at hev
        rcases hev with (h1 | h1) | h1
        · rw [h1]; rfl
        · exact hskip ev h1
        · exact ih _ ev h1

theorem prepare_fd_pid_events (sz : Sizes) (pid : Int) (img : Image) (s : Arena) :
    ∀ ev ∈ (prepare_fd_pid sz pid img s).2.2, ev.opens_record_path = false := by
  intro ev hev
  cases img with
  | missing =>
    simp only [prepare_fd_pid, List.mem_singleton] at hev
    rw [hev]; rfl
  | unreadable =>
    simp only [prepare_fd_pid, List.mem_singleton] at hev
    rw [hev]; rfl
  | stream records eof =>
    simp only [prepare_fd_pid, List.mem_cons, List.mem_append, List.not_mem_nil, or_false] at hev
    rcases hev with (h1 | h1) | h1
    · rw [h1]; rfl
    · exact prepare_fd_pid_loop_events sz pid eof records s ev h1
    · rw [h1]; rfl

theorem inv_nr_le (sz : Sizes) (H : List (Int × fdinfo_entry)) (s : Arena) (h : Inv sz H s) :
    s.nr_fdinfo_descs ≤ 4096 / sz.desc := by
  rw [Nat.le_div_iff_mul_le sz.desc_pos]
  by_cases h0 : s.nr_fdinfo_descs = 0
  · rw [h0]; simp
  · have := h.cap (s.nr_fdinfo_descs - 1) (by omega)
    have e : s.nr_fdinfo_descs - 1 + 1 = s.nr_fdinfo_descs := by omega
    rw [e] at this
    omega

theorem inv_ids_le (sz : Sizes) (H : List (Int × fdinfo_entry)) (s : Arena) (h : Inv sz H s) :
    ((H.map (fun c => c.2.id)).dedup).length ≤ s.nr_fdinfo_descs := by
  have hidx : ∀ id ∈ (H.map (fun c => c.2.id)).dedup,
      ∃ i, i < s.nr_fdinfo_descs ∧ (s.fdinfo_descs i).id = id ∧ find_fd s id = some i := by
    intro id hid
    obtain ⟨c, hc, hcid⟩ := List.mem_map.1 (List.mem_dedup.1 hid)
    obtain ⟨i, hi, h1, _⟩ := h.hist_entry c hc
    exact ⟨i, hi, h1.trans hcid, find_fd_of_inv sz H s h i hi id (h1.trans hcid)⟩
  have hnd : ((H.map (fun c => c.2.id)).dedup.map (fun id => (find_fd s id).getD 0)).Nodup := by
    apply List.Nodup.map_on _ (List.nodup_dedup _)
    intro a ha b hb hab
    obtain ⟨i, _, h1, h2⟩ := hidx a ha
    obtain ⟨j, _, h3, h4⟩ := hidx b hb
    simp only [h2, h4, Option.getD_some] at hab
    rw [← h1, ← h3, hab]
  have hb : ∀ k ∈ (H.map (fun c => c.2.id)).dedup.map (fun id => (find_fd s id).getD 0),
      k < s.nr_fdinfo_descs := by
    intro k hk
    obtain ⟨id, hid, hk1⟩ := List.mem_map.1 hk
    obtain ⟨i, hi, _, h2⟩ := hidx id hid
    simp only [h2, Option.getD_some] at hk1
    rw [← hk1]; exact hi
  have := nodup_length_le _ _ hnd hb
  simpa using this

theorem collect_fd_ret (sz : Sizes) (pid : Int) (e : fdinfo_entry) (s : Arena) :
    (collect_fd sz pid e s).1 = 0 ∨ (collect_fd sz pid e s).1 = -1 := by
  by_cases hA : (s.nr_fdinfo_list + 1) * sz.list_entry ≥ 4096
  · rw [collect_fd_full sz pid e s hA]
    exact Or.inr rfl
  · cases hf : scan_descs s e.id with
    | some i =>
      rw [collect_fd_found sz pid e s i hA hf]
      exact Or.inl rfl
    | none =>
      by_cases hC : (s.nr_fdinfo_descs + 1) * sz.desc ≥ 4096
      · rw [collect_fd_no_room sz pid e s hA hf hC]
        exact Or.inr rfl
      · rw [collect_fd_new sz pid e s hA hf hC]
        exact Or.inl rfl

theorem prepare_fd_pid_loop_ret (sz : Sizes) (pid : Int) (eof : Bool)
    (records : List fdinfo_entry) (s : Arena) :
    (prepare_fd_pid_loop sz pid eof records s).1 = 0 ∨
      (prepare_fd_pid_loop sz pid eof records s).1 = -1 := by
  induction records generalizing s with
  | nil => cases eof <;> simp [prepare_fd_pid_loop]
  | cons e es ih =>
    simp only [prepare_fd_pid_loop]
    split
    · exact ih s
    · split
      · exact collect_fd_ret sz pid e s
      · exact ih _

/-- The pass of one process keeps the invariant; when it returns 0 the history
grows by all its non-special records. -/
theorem prepare_fd_pid_loop_inv (sz : Sizes) (pid : Int) (eof : Bool)
    (records : List fdinfo_entry) (H : List (Int × fdinfo_entry)) (s : Arena) (h : Inv sz H s) :
    ∃ H1, Inv sz (H ++ H1) (prepare_fd_pid_loop sz pid eof records s).2.1 ∧
      ((prepare_fd_pid_loop sz pid eof records s).1 = 0 →
        ∀ r ∈ records, fd_is_special r = false → (pid, r) ∈ H1) := by
  induction records generalizing H s with
  | nil =>
    refine ⟨[], by simpa [prepare_fd_pid_loop] using h, ?_⟩
    intro _ r hr
    simp at hr
  | cons e es ih =>
    by_cases hsp : fd_is_special e = true
    · obtain ⟨H1, hinv, hall⟩ := ih H s h
      refine ⟨H1, by simpa [prepare_fd_pid_loop, hsp] using hinv, ?_⟩
      intro hret r hr hns
      have hret1 : (prepare_fd_pid_loop sz pid eof es s).1 = 0 := by
        simpa [prepare_fd_pid_loop, hsp] using hret
      rcases List.mem_cons.1 hr with h1 | h1
      · rw [h1, hsp] at hns
        exact absurd hns (by simp)
      · exact hall hret1 r h1 hns
    · have step := collect_fd_inv sz H s pid e h
      by_cases hc : (collect_fd sz pid e s).1 < 0
      · have hne : ¬ (collect_fd sz pid e s).1 = 0 := by omega
        rw [if_neg hne] at step
        refine ⟨[], by simpa [prepare_fd_pid_loop, hsp, hc] using step.2, ?_⟩
        intro hret
        have : (collect_fd sz pid e s).1 = 0 := by
          simpa [prepare_fd_pid_loop, hsp, hc] using hret
        exact absurd this hne
      · have h0 : (collect_fd sz pid e s).1 = 0 := by
          rcases step.1 with h1 | h1
          · exact h1
          · rw [h1] at hc
            exact absurd (by decide) hc
        rw [if_pos h0] at step
        obtain ⟨H1, hinv, hall⟩ := ih _ _ step.2
        refine ⟨(pid, e) :: H1, ?_, ?_⟩
        · have e1 : H ++ (pid, e) :: H1 = H ++ [(pid, e)] ++ H1 := by simp
          rw [e1]
          simpa [prepare_fd_pid_loop, hsp, hc] using hinv
        · intro hret r hr hns
          have hret1 : (prepare_fd_pid_loop sz pid eof es (collect_fd sz pid e s).2).1 = 0 := by
            simpa [prepare_fd_pid_loop, hsp, hc] using hret
          rcases List.mem_cons.1 hr with h1 | h1
          · rw [h1]
            exact List.mem_cons_self _ _
          · exact List.mem_cons_of_mem _ (hall hret1 r h1 hns)

theorem dedup_length_le_of_subset (l1 l2 : List Nat) (h : ∀ x ∈ l1, x ∈ l2) :
    l1.dedup.length ≤ l2.dedup.length := by
  apply List.Subperm.length_le
  apply List.subperm_of_subset (List.nodup_dedup _)
  intro x hx
  exact List.mem_dedup.2 (h x (List.mem_dedup.1 hx))

/-- A pass whose non-special records carry more identities than the descriptor
page holds returns -1, whatever was collected before it. -/
theorem prepare_fd_pid_capacity (sz : Sizes) (before : List (Int × fdinfo_entry)) (pid : Int)
    (records : List fdinfo_entry) (eof : Bool)
    (hmany : 4096 / sz.desc <
      (((records.filter (fun r => !fd_is_special r)).map (fun r => r.id)).dedup).length) :
    (prepare_fd_pid sz pid (Image.stream records eof) (collected sz before)).1 = -1 := by
  have h0 : Inv sz _ (collected sz before) :=
    run_collect_inv sz before [] prepare_shared_fdinfo (inv_empty sz)
  obtain ⟨H1, h1, hall⟩ := prepare_fd_pid_loop_inv sz pid eof records _ _ h0
  rcases prepare_fd_pid_loop_ret sz pid eof records (collected sz before) with hr | hr
  · exfalso
    have a := inv_ids_le sz _ _ h1
    have b := inv_nr_le sz _ _ h1
    have c := dedup_length_le_of_subset
      ((records.filter (fun r => !fd_is_special r)).map (fun r => r.id))
      ((([] ++ succeeded before (run_collect sz before prepare_shared_fdinfo).1) ++ H1).map
        (fun c : Int × fdinfo_entry => c.2.id))
      (by
        intro x hx
        obtain ⟨r, hr1, hr2⟩ := List.mem_map.1 hx
        obtain ⟨hr3, hr4⟩ := List.mem_filter.1 hr1
        have hns : fd_is_special r = false := by simpa using hr4
        exact List.mem_map.2 ⟨(pid, r), List.mem_append_right _ (hall hr r hr3 hns), hr2⟩)
    omega
  · exact hr

/-- C6. From the empty arena, a sequence of `collect_fd` calls whose records carry
more distinct identities than `4096 / sizeof (struct fdinfo_desc)` contains a
call that returns -1.  The error comes out of the collection: a pass
`prepare_fd_pid` whose non-special records carry that many identities returns
-1, and no pass, the only caller of `collect_fd`, makes a call that opens the
file a record names. -/
theorem collect_fd_capacity (sz : Sizes) (calls : List (Int × fdinfo_entry))
    (hmany : 4096 / sz.desc < ((calls.map (fun c => c.2.id)).dedup).length) :
    (-1 : Int) ∈ (run_collect sz calls prepare_shared_fdinfo).1 ∧
    (∀ (before : List (Int × fdinfo_entry)) (pid : Int) (records : List fdinfo_entry) (eof : Bool),
      4096 / sz.desc <
        (((records.filter (fun r => !fd_is_special r)).map (fun r => r.id)).dedup).length →
      (prepare_fd_pid sz pid (Image.stream records eof) (collected sz before)).1 = -1) ∧
    ∀ (pid : Int) (img : Image) (s : Arena),
      ∀ ev ∈ (prepare_fd_pid sz pid img s).2.2, ev.opens_record_path = false := by
  refine ⟨?_, prepare_fd_pid_capacity sz, prepare_fd_pid_events sz⟩
  by_contra hno
  have hrets := run_collect_rets sz calls [] prepare_shared_fdinfo (inv_empty sz)
  have hok : ∀ r ∈ (run_collect sz calls prepare_shared_fdinfo).1, r = 0 := by
    intro r hr
    rcases hrets r hr with h0 | h1
    · exact h0
    · exact absurd (h1 ▸ hr) hno
  have h := run_collect_inv_ok sz calls hok
  have a := inv_ids_le sz calls _ h
  have b := inv_nr_le sz calls _ h
  omega

theorem many_ids_distinct : ((many_ids.map (fun c => c.2.id)).dedup).length = 86 := by
  have e : many_ids.map (fun c => c.2.id) = List.range 86 := by
    simp [many_ids, reg, Function.comp_def]
  rw [e, (List.nodup_range 86).dedup, List.length_range]

theorem many_records_distinct :
    ((((many_ids.map Prod.snd).filter (fun r => !fd_is_special r)).map
      (fun r => r.id)).dedup).length = 86 := by
  have e : ((many_ids.map Prod.snd).filter (fun r => !fd_is_special r)).map (fun r => r.id)
      = List.range 86 := by
    simp [many_ids, reg, fd_is_special, Function.comp_def, List.filter_map]
  rw [e, (List.nodup_range 86).dedup, List.length_range]

/-- C6, at 86 records with 86 identities and 48-byte descriptors (4096 / 48 = 85):
one of the 86 calls returns -1, and the pass over these records returns -1. -/
theorem collect_fd_capacity_witness :
    4096 / sizes64.desc < ((many_ids.map (fun c => c.2.id)).dedup).length ∧
    (-1 : Int) ∈ (run_collect sizes64 many_ids prepare_shared_fdinfo).1 ∧
    (prepare_fd_pid sizes64 1 (Image.stream (many_ids.map Prod.snd) true)
      (collected sizes64 [])).1 = -1 :=
  ⟨by rw [many_ids_distinct]; decide,
   (collect_fd_capacity sizes64 many_ids (by rw [many_ids_distinct]; decide)).1,
   (collect_fd_capacity sizes64 many_ids (by rw [many_ids_distinct]; decide)).2.1 [] 1
     (many_ids.map Prod.snd) true (by rw [many_records_distinct]; decide)⟩

theorem find_fdinfo_list_entry_some (s : Arena) (pid fd : Int) (fi : Nat)
    (h : ∃ k ∈ (s.fdinfo_descs fi).list, (s.fdinfo_list k).fd = fd ∧ (s.fdinfo_list k).pid = pid) :
    ∃ k, find_fdinfo_list_entry s pid fd fi = some k ∧ k ∈ (s.fdinfo_descs fi).list ∧
      (s.fdinfo_list k).fd = fd ∧ (s.fdinfo_list k).pid = pid := by
  unfold find_fdinfo_list_entry
  cases hf : (s.fdinfo_descs fi).list.find?
      (fun k => decide ((s.fdinfo_list k).fd = fd ∧ (s.fdinfo_list k).pid = pid)) with
  | none =>
    obtain ⟨k, hk, hm⟩ := h
    have := List.find?_eq_none.1 hf k hk
    simp [hm.1, hm.2] at this
  | some k =>
    have h1 := List.mem_of_find?_eq_some hf
    have h2 := List.find?_some hf
    simp only [decide_eq_true_eq] at h2
    exact ⟨k, rfl, h1, h2.1, h2.2⟩

/-- C10. Let the pass `prepare_fd_pid` for `pid` return 0, after any earlier
`collect_fd` calls and before any later ones.  Then in the final arena, for every
non-special record `r` of `pid`: `find_fd (r.id)` returns a descriptor with that
id, `find_fdinfo_list_entry (pid, r.addr, descriptor)` finds an entry with that
pid and descriptor number instead of reaching `BUG_ON (found == 0)`, and so the
PREPARE step `open_transport_fd` on the record does not stop in `BUG_ON`. -/
theorem collection_complete (sz : Sizes) (before after : List (Int × fdinfo_entry)) (pid : Int)
    (records : List fdinfo_entry) (eof : Bool)
    (hpass : (collect_around sz before pid (Image.stream records eof) after).1 = 0) :
    ∀ r ∈ records, fd_is_special r = false →
      ∃ i k,
        find_fd (collect_around sz before pid (Image.stream records eof) after).2 r.id = some i ∧
        ((collect_around sz before pid (Image.stream records eof) after).2.fdinfo_descs i).id
          = r.id ∧
        find_fdinfo_list_entry (collect_around sz before pid (Image.stream records eof) after).2
          pid (to_int r.addr) i = some k ∧
        ((collect_around sz before pid (Image.stream records eof) after).2.fdinfo_list k).pid
          = pid ∧
        ((collect_around sz before pid (Image.stream records eof) after).2.fdinfo_list k).fd
          = to_int r.addr ∧
        ∀ env : Env,
          (open_transport_fd env pid r i
            (collect_around sz before pid (Image.stream records eof) after).2).1 ≠ Outcome.bug := by
  have h0 := run_collect_inv sz before [] prepare_shared_fdinfo (inv_empty sz)
  obtain ⟨H1, h1, hall⟩ := prepare_fd_pid_loop_inv sz pid eof records _ _ h0
  have h2 := run_collect_inv sz after _ _ h1
  have hpass1 : (prepare_fd_pid_loop sz pid eof records
      (run_collect sz before prepare_shared_fdinfo).2).1 = 0 := hpass
  have hfin : (collect_around sz before pid (Image.stream records eof) after).2 =
      (run_collect sz after (prepare_fd_pid_loop sz pid eof records
        (run_collect sz before prepare_shared_fdinfo).2).2.1).2 := rfl
  rw [hfin]
  intro r hr hns
  have hmem := hall hpass1 r hr hns
  obtain ⟨i, hi, hid, k0, hk0, hent⟩ :=
    h2.hist_entry (pid, r) (List.mem_append_left _ (List.mem_append_right _ hmem))
  obtain ⟨k, hk, _, hfd, hp⟩ := find_fdinfo_list_entry_some _ pid (to_int r.addr) i
    ⟨k0, hk0, by rw [hent], by rw [hent]⟩
  refine ⟨i, k, find_fd_of_inv sz _ _ h2 i hi r.id hid, hid, hk, hp, hfd, ?_⟩
  intro env
  unfold open_transport_fd
  split
  · simp
  · simp only [hk]
    split
    · simp
    · split
      · simp
      · split <;> simp

/-- C10, at the pass of process 4 over a working-directory record and two regular
records, between a call for process 3 and a call for process 7. -/
theorem collection_complete_witness :
    (collect_around sizes64 [(3, reg 5 9)] 4
      (Image.stream [{ reg 0 0 with type := fd_type.FDINFO_CWD }, reg 5 9, reg 6 8] true)
      [(7, reg 5 9)]).1 = 0 ∧
    ∃ i k,
      find_fd (collect_around sizes64 [(3, reg 5 9)] 4
        (Image.stream [{ reg 0 0 with type := fd_type.FDINFO_CWD }, reg 5 9, reg 6 8] true)
        [(7, reg 5 9)]).2 (reg 6 8).id = some i ∧
      find_fdinfo_list_entry (collect_around sizes64 [(3, reg 5 9)] 4
        (Image.stream [{ reg 0 0 with type := fd_type.FDINFO_CWD }, reg 5 9, reg 6 8] true)
        [(7, reg 5 9)]).2 4 (to_int (reg 6 8).addr) i = some k :=
  ⟨by decide,
   by
    obtain ⟨i, k, h1, _, h3, _⟩ := collection_complete sizes64 [(3, reg 5 9)] [(7, reg 5 9)] 4
      [{ reg 0 0 with type := fd_type.FDINFO_CWD }, reg 5 9, reg 6 8] true (by decide)
      (reg 6 8) (by decide) (by decide)
    exact ⟨i, k, h1, h3⟩⟩


theorem dec_users_list (s : Arena) (fi : Nat) : (dec_users s fi).fdinfo_list = s.fdinfo_list := rfl

theorem dec_users_users (s : Arena) (fi : Nat) (u : Nat) (hu : (s.fdinfo_descs fi).users = u)
    (h1 : 1 ≤ u) (hlt : u < 2 ^ 32) : ((dec_users s fi).fdinfo_descs fi).users = u - 1 := by
  simp only [dec_users, Function.update_same, hu]
  omega

/-- The loop of `open_fd` never ends in `BUG_ON`, and when it runs to its end it
has decremented `users` once per entry. -/
theorem open_fd_loop_users (env : Env) (pid : Int) (fe : fdinfo_entry) (fi : Nat) (sock : Int)
    (l : List Nat) (s : Arena) (u : Nat) (hu : (s.fdinfo_descs fi).users = u)
    (hle : l.length ≤ u) (hlt : u < 2 ^ 32) :
    (open_fd_loop env pid fe fi sock l s).1 ≠ some Outcome.bug ∧
    ((open_fd_loop env pid fe fi sock l s).1 = none →
      ((open_fd_loop env pid fe fi sock l s).2.1.fdinfo_descs fi).users = u - l.length) := by
  induction l generalizing s u with
  | nil => simp [open_fd_loop, hu]
  | cons k rest ih =>
    simp only [List.length_cons] at hle
    have hd := dec_users_users s fi u hu (by omega) hlt
    have hr := ih (dec_users s fi) (u - 1) hd (by omega) (by omega)
    have e : u - 1 - rest.length = u - (rest.length + 1) := by omega
    rw [e] at hr
    simp only [open_fd_loop, List.length_cons]
    split
    · exact hr
    · split
      · simp
      · split
        · simp
        · exact hr

/-- The loop of `open_fd` when every entry of another process has signalled and
every send succeeds: it runs to its end, leaves the entries as they were, and
sends once to each entry of another process, in list order. -/
theorem open_fd_loop_sends (env : Env) (pid : Int) (fe : fdinfo_entry) (fi : Nat) (sock : Int)
    (l : List Nat) (s : Arena)
    (hsig : ∀ k ∈ l, (s.fdinfo_list k).pid ≠ pid → (s.fdinfo_list k).real_pid ≠ 0)
    (hsend : ∀ a b c d, 0 ≤ env.send_fd a b c d) :
    (open_fd_loop env pid fe fi sock l s).1 = none ∧
    sends (open_fd_loop env pid fe fi sock l s).2.2 =
      (l.filter (fun k => decide ((s.fdinfo_list k).pid ≠ pid))).map
        (fun k => transport_name_gen (to_int (s.fdinfo_list k).real_pid) (s.fdinfo_list k).fd) := by
  induction l generalizing s with
  | nil => simp [open_fd_loop, sends]
  | cons k rest ih =>
    have hr := ih (dec_users s fi) (fun j hj => hsig j (List.mem_cons_of_mem _ hj))
    rw [dec_users_list] at hr
    simp only [open_fd_loop, dec_users_list]
    by_cases hp : pid = (s.fdinfo_list k).pid
    · rw [if_pos hp]
      refine ⟨hr.1, ?_⟩
      rw [hr.2, List.filter_cons]
      simp [hp.symm]
    · rw [if_neg hp]
      have hp2 : (s.fdinfo_list k).pid ≠ pid := fun h => hp h.symm
      have hs := hsig k (List.mem_cons_self _ _) hp2
      rw [if_neg hs]
      have hsd := hsend sock
        (transport_name_gen (to_int (s.fdinfo_list k).real_pid) (s.fdinfo_list k).fd).1
        (transport_name_gen (to_int (s.fdinfo_list k).real_pid) (s.fdinfo_list k).fd).2 fe.addr
      rw [if_neg (by omega)]
      refine ⟨hr.1, ?_⟩
      simp only [sends]
      rw [hr.2, List.filter_cons]
      simp [hp2]

theorem sends_append (a b : List Event) : sends (a ++ b) = sends a ++ sends b := by
  induction a with
  | nil => rfl
  | cons ev t ih => cases ev <;> simp [sends, ih]

theorem set_desc_real_pid_entries (s : Arena) (fi v : Nat) :
    (set_desc_real_pid s fi v).fdinfo_list = s.fdinfo_list := rfl

theorem set_desc_real_pid_list (s : Arena) (fi v : Nat) :
    ((set_desc_real_pid s fi v).fdinfo_descs fi).list = (s.fdinfo_descs fi).list := by
  simp [set_desc_real_pid]

/-- The call `open_fd` on a descriptor whose `users` is the length of its list never stops
in `BUG_ON (fi->users)`, whatever the calls it makes return. -/
theorem open_fd_no_bug (env : Env) (pid : Int) (fe : fdinfo_entry) (fi : Nat) (s : Arena)
    (hu : (s.fdinfo_descs fi).users = (s.fdinfo_descs fi).list.length)
    (hlt : (s.fdinfo_descs fi).list.length < 2 ^ 32) :
    (open_fd env pid fe fi s).1 ≠ Outcome.bug := by
  have hl := open_fd_loop_users env pid fe fi env.socket (s.fdinfo_descs fi).list
    (set_desc_real_pid s fi (to_u32 env.getpid))
    (s.fdinfo_descs fi).list.length (by simp [set_desc_real_pid, hu]) (le_refl _) hlt
  unfold open_fd
  by_cases h1 : (s.fdinfo_descs fi).pid ≠ pid ∨ fe.addr ≠ (s.fdinfo_descs fi).addr
  · rw [if_pos h1]; simp
  rw [if_neg h1]
  dsimp only
  by_cases h2 : env.open_fe_fd fe < 0
  · rw [if_pos h2]; simp
  rw [if_neg h2]
  by_cases h3 : env.reopen_fd_as (to_int fe.addr) (env.open_fe_fd fe) ≠ 0
  · rw [if_pos h3]; simp
  rw [if_neg h3]
  by_cases h4 : (s.fdinfo_descs fi).users = 1
  · rw [if_pos h4]; simp
  rw [if_neg h4]
  by_cases h5 : env.socket < 0
  · rw [if_pos h5]; simp
  rw [if_neg h5, set_desc_real_pid_list]
  cases ho : (open_fd_loop env pid fe fi env.socket (s.fdinfo_descs fi).list
      (set_desc_real_pid s fi (to_u32 env.getpid))).1 with
  | some o =>
    dsimp only
    intro hb
    rw [hb] at ho
    exact hl.1 ho
  | none =>
    have := hl.2 ho
    simp only [Nat.sub_self] at this
    dsimp only
    rw [if_neg (by rw [this]; simp)]
    simp

/-- The call `open_fd` on the owner's record when every call succeeds and every entry of
another process has signalled: it returns 0, `users` ends at 0, and the sends are
one per entry of another process. -/
theorem open_fd_ok (env : Env) (fe : fdinfo_entry) (fi : Nat) (s : Arena)
    (hu : (s.fdinfo_descs fi).users = (s.fdinfo_descs fi).list.length)
    (hlt : (s.fdinfo_descs fi).list.length < 2 ^ 32)
    (hmany : 1 < (s.fdinfo_descs fi).users)
    (haddr : fe.addr = (s.fdinfo_descs fi).addr)
    (hsig : ∀ k ∈ (s.fdinfo_descs fi).list, (s.fdinfo_list k).pid ≠ (s.fdinfo_descs fi).pid →
      (s.fdinfo_list k).real_pid ≠ 0)
    (hopen : 0 ≤ env.open_fe_fd fe)
    (hreopen : ∀ a b, env.reopen_fd_as a b = 0)
    (hsock : 0 ≤ env.socket)
    (hsend : ∀ a b c d, 0 ≤ env.send_fd a b c d) :
    (open_fd env (s.fdinfo_descs fi).pid fe fi s).1 = Outcome.ret 0 ∧
    ((open_fd env (s.fdinfo_descs fi).pid fe fi s).2.1.fdinfo_descs fi).users = 0 ∧
    sends (open_fd env (s.fdinfo_descs fi).pid fe fi s).2.2 =
      ((s.fdinfo_descs fi).list.filter
        (fun k => decide ((s.fdinfo_list k).pid ≠ (s.fdinfo_descs fi).pid))).map
        (fun k => transport_name_gen (to_int (s.fdinfo_list k).real_pid) (s.fdinfo_list k).fd) := by
  have hl := open_fd_loop_users env (s.fdinfo_descs fi).pid fe fi env.socket
    (s.fdinfo_descs fi).list
    (set_desc_real_pid s fi (to_u32 env.getpid))
    (s.fdinfo_descs fi).list.length (by simp [set_desc_real_pid, hu]) (le_refl _) hlt
  have hs := open_fd_loop_sends env (s.fdinfo_descs fi).pid fe fi env.socket
    (s.fdinfo_descs fi).list
    (set_desc_real_pid s fi (to_u32 env.getpid))
    hsig hsend
  have hz := hl.2 hs.1
  simp only [Nat.sub_self] at hz
  have h1 : ¬ ((s.fdinfo_descs fi).pid ≠ (s.fdinfo_descs fi).pid ∨
      fe.addr ≠ (s.fdinfo_descs fi).addr) := by
    simp [haddr]
  have h2 : ¬ env.open_fe_fd fe < 0 := by omega
  have h3 : ¬ env.reopen_fd_as (to_int fe.addr) (env.open_fe_fd fe) ≠ 0 := by
    simp [hreopen]
  have h4 : ¬ (s.fdinfo_descs fi).users = 1 := by omega
  have h5 : ¬ env.socket < 0 := by omega
  unfold open_fd
  rw [if_neg h1]
  dsimp only
  rw [if_neg h2, if_neg h3, if_neg h4, if_neg h5, set_desc_real_pid_list, hs.1]
  dsimp only
  rw [if_neg (by rw [hz]; simp)]
  refine ⟨rfl, hz, ?_⟩
  dsimp only
  rw [sends_append, sends_append, hs.2]
  simp [sends, set_desc_real_pid_entries]


/-- C9. After a sequence of `collect_fd` calls from the empty arena that all return
0, the `users` of every descriptor is the number of entries linked on its list.
Hence, on such a descriptor, `open_fd` never stops in `BUG_ON (fi->users)`; and
when the owner's CREATE step runs on it with `users > 1`, every open and send
succeeding and every other sharer having signalled, the loop brings `users` to
exactly 0 and the call returns 0. -/
theorem open_fd_users_reach_zero (sz : Sizes) (calls : List (Int × fdinfo_entry))
    (hok : ∀ r ∈ (run_collect sz calls prepare_shared_fdinfo).1, r = 0) :
    (∀ i, i < (collected sz calls).nr_fdinfo_descs →
      ((collected sz calls).fdinfo_descs i).users =
        ((collected sz calls).fdinfo_descs i).list.length) ∧
    (∀ i, i < (collected sz calls).nr_fdinfo_descs → ∀ (s : Arena) (env : Env) (pid : Int)
      (fe : fdinfo_entry), s.fdinfo_descs i = (collected sz calls).fdinfo_descs i →
      (open_fd env pid fe i s).1 ≠ Outcome.bug) ∧
    (∀ i, i < (collected sz calls).nr_fdinfo_descs → ∀ (s : Arena) (env : Env) (fe : fdinfo_entry),
      s.fdinfo_descs i = (collected sz calls).fdinfo_descs i →
      1 < (s.fdinfo_descs i).users → fe.addr = (s.fdinfo_descs i).addr →
      signalled s i → calls_succeed env fe →
      (open_fd env (s.fdinfo_descs i).pid fe i s).1 = Outcome.ret 0 ∧
      ((open_fd env (s.fdinfo_descs i).pid fe i s).2.1.fdinfo_descs i).users = 0) := by
  have h : Inv sz calls (collected sz calls) := run_collect_inv_ok sz calls hok
  refine ⟨h.users_eq, ?_, ?_⟩
  · intro i hi s env pid fe hsame
    have hlen := inv_list_length sz calls _ h i hi
    apply open_fd_no_bug
    · rw [hsame]; exact h.users_eq i hi
    · rw [hsame]; omega
  · intro i hi s env fe hsame hmany haddr hsig henv
    have hlen := inv_list_length sz calls _ h i hi
    have := open_fd_ok env fe i s (by rw [hsame]; exact h.users_eq i hi) (by rw [hsame]; omega)
      hmany haddr hsig henv.1 henv.2.1 henv.2.2.1 henv.2.2.2
    exact ⟨this.1, this.2.1⟩

/-- C9, at the three sharers of one file, prepared: the owner's CREATE step
returns 0 and leaves `users` at 0. -/
theorem open_fd_users_reach_zero_witness :
    (∀ r ∈ (run_collect sizes64 three_sharers prepare_shared_fdinfo).1, r = 0) ∧
    three_prepared.fdinfo_descs 0 = (collected sizes64 three_sharers).fdinfo_descs 0 ∧
    (three_prepared.fdinfo_descs 0).users = 3 ∧
    signalled three_prepared 0 ∧ calls_succeed (env_ok 103 5) (reg 4 9) ∧
    (open_fd (env_ok 103 5) (three_prepared.fdinfo_descs 0).pid (reg 4 9) 0 three_prepared).1
      = Outcome.ret 0 ∧
    ((open_fd (env_ok 103 5) (three_prepared.fdinfo_descs 0).pid (reg 4 9) 0
      three_prepared).2.1.fdinfo_descs 0).users = 0 :=
  ⟨by decide, by decide, by decide, by unfold signalled; decide,
   ⟨by decide, fun _ _ => rfl, by decide, fun _ _ _ _ => le_refl 0⟩,
   (open_fd_users_reach_zero sizes64 three_sharers (by decide)).2.2 0 (by decide)
     three_prepared (env_ok 103 5) (reg 4 9) (by decide) (by decide) (by decide)
     (by unfold signalled; decide)
     ⟨by decide, fun _ _ => rfl, by decide, fun _ _ _ _ => le_refl 0⟩⟩

/-- C3. Take a descriptor built by a collection whose calls all returned 0, with
`users > 1`, and run the owner's CREATE step `open_fd` on the owner's record in
an arena that still holds that descriptor, every open and send succeeding and
every other sharer having signalled.  The call returns 0, the entries on the
descriptor's list are pairwise different, and the `send_fd` calls are, in list
order, exactly one per entry whose pid differs from the owner's, each addressed
to the name `transport_name_gen` makes from that entry's `real_pid` and `fd`;
entries with the owner's pid get no send. -/
theorem open_fd_sends_to_sharers (sz : Sizes) (calls : List (Int × fdinfo_entry))
    (hok : ∀ r ∈ (run_collect sz calls prepare_shared_fdinfo).1, r = 0)
    (i : Nat) (hi : i < (collected sz calls).nr_fdinfo_descs)
    (s : Arena) (env : Env) (fe : fdinfo_entry)
    (hsame : s.fdinfo_descs i = (collected sz calls).fdinfo_descs i)
    (hmany : 1 < (s.fdinfo_descs i).users) (haddr : fe.addr = (s.fdinfo_descs i).addr)
    (hsig : signalled s i) (henv : calls_succeed env fe) :
    (open_fd env (s.fdinfo_descs i).pid fe i s).1 = Outcome.ret 0 ∧
    (s.fdinfo_descs i).list.Nodup ∧
    sends (open_fd env (s.fdinfo_descs i).pid fe i s).2.2 =
      ((s.fdinfo_descs i).list.filter
        (fun k => decide ((s.fdinfo_list k).pid ≠ (s.fdinfo_descs i).pid))).map
        (fun k => transport_name_gen (to_int (s.fdinfo_list k).real_pid) (s.fdinfo_list k).fd) := by
  have h : Inv sz calls (collected sz calls) := run_collect_inv_ok sz calls hok
  have hlen := inv_list_length sz calls _ h i hi
  have := open_fd_ok env fe i s (by rw [hsame]; exact h.users_eq i hi) (by rw [hsame]; omega)
    hmany haddr hsig henv.1 henv.2.1 henv.2.2.1 henv.2.2.2
  refine ⟨this.1, ?_, this.2.2⟩
  rw [hsame]
  exact h.list_nodup i hi

/-- C3, at the three sharers of one file, prepared: the owner, process 3, sends to
the names of (105, 6) and (107, 4), the restored pids and descriptor numbers of
the two other sharers, and to nobody else. -/
theorem open_fd_sends_to_sharers_witness :
    (∀ r ∈ (run_collect sizes64 three_sharers prepare_shared_fdinfo).1, r = 0) ∧
    three_prepared.fdinfo_descs 0 = (collected sizes64 three_sharers).fdinfo_descs 0 ∧
    1 < (three_prepared.fdinfo_descs 0).users ∧
    signalled three_prepared 0 ∧ calls_succeed (env_ok 103 5) (reg 4 9) ∧
    sends (open_fd (env_ok 103 5) (three_prepared.fdinfo_descs 0).pid (reg 4 9) 0
      three_prepared).2.2 =
      ((three_prepared.fdinfo_descs 0).list.filter
        (fun k => decide ((three_prepared.fdinfo_list k).pid ≠
          (three_prepared.fdinfo_descs 0).pid))).map
        (fun k => transport_name_gen (to_int (three_prepared.fdinfo_list k).real_pid)
          (three_prepared.fdinfo_list k).fd) ∧
    ((three_prepared.fdinfo_descs 0).list.filter
        (fun k => decide ((three_prepared.fdinfo_list k).pid ≠
          (three_prepared.fdinfo_descs 0).pid))).map
        (fun k => (to_int (three_prepared.fdinfo_list k).real_pid,
          (three_prepared.fdinfo_list k).fd)) = [(105, 6), (107, 4)] :=
  ⟨by decide, by decide, by decide, by unfold signalled; decide,
   ⟨by decide, fun _ _ => rfl, by decide, fun _ _ _ _ => le_refl 0⟩,
   (open_fd_sends_to_sharers sizes64 three_sharers (by decide) 0 (by decide)
     three_prepared (env_ok 103 5) (reg 4 9) (by decide) (by decide) (by decide)
     (by unfold signalled; decide)
     ⟨by decide, fun _ _ => rfl, by decide, fun _ _ _ _ => le_refl 0⟩).2.2,
   by decide⟩

end Criu
